import Mathlib

/-!
Shallow embedding of the display work queue implemented in
`src/common/display/DisplayQueue.cpp` (class `hwcomposer::DisplayQueue`).

Modelling conventions:
* Machine integers (`uint32_t`) are `Nat`, with wrap-around applied explicitly
  through `sub32` wherever the source computes a 32-bit difference.
* The intrusive circular doubly-linked work ring (`mpWorkQueue`, with
  `head.prev` the tail) is modelled as a `List RingItem`, head first; enqueue
  appends at the end, dequeue-of-head takes the tail of the list, and
  unlinking an interior node erases it.  A work item "is queued"
  (`WorkItem::isQueued`, both link pointers non-null) exactly when it is a
  member of the list.
* Pool frames (`maFrames`) live in `State.pool`; a FRAME ring item stores the
  pool index of its frame, mirroring the fact that the C++ ring links the
  pool-resident `Frame` objects themselves.  The `effectiveFrame` of a FRAME
  item is a field of the pool frame, the `effectiveFrame` of an EVENT item is
  carried by the item.
* `HWCASSERT` aborts the process when its condition fails; every operation
  therefore returns `Option`, with `none` for an assertion failure, and
  theorems quantify over executions that complete (`= some _`).
* Condition-variable notifications (`mConditionWorkConsumed.notify_all`,
  `mConditionFrameReleased.notify_all`) are modelled as counters so that
  "signals workConsumed" is statable.
* The backend calls made in unlocked windows (`consumeWork`, `syncFlip`) do
  not touch queue state; `syncFlip` is recorded in a counter.
-/

namespace DisplayQueue

/-- 2^32, the modulus of `uint32_t` arithmetic. -/
def m32 : Nat := 4294967296

/-- 2^31; a 32-bit value below it is non-negative as `int32_t`. -/
def half32 : Nat := 2147483648

/-- `uint32_t` subtraction `a - b` with wrap-around, as C++ computes it. -/
def sub32 (a b : Nat) : Nat := (a % m32 + (m32 - b % m32)) % m32

/-- `int32_t( a - b ) >= 0`: the signed reading of the 32-bit difference is
non-negative.  This is the comparison idiom used throughout the source. -/
def sge32 (a b : Nat) : Bool := sub32 a b < half32

/-- `int32_t( a - b ) > 0`: the signed reading of the 32-bit difference is
strictly positive (used by `findFree` for the oldest-timeline test). -/
def sgt32 (a b : Nat) : Bool := 0 < sub32 a b && sub32 a b < half32

/-- `DisplayQueue::FrameId`: the pair of wrap-around counters
`(hwcIndex, timelineIndex)` (spec section 3). -/
structure FrameId where
  hwcIndex : Nat := 0
  timelineIndex : Nat := 0
deriving DecidableEq, Repr

instance : Inhabited FrameId := ⟨{}⟩

/-- Modelled from the spec: `FrameId::validateFutureFrame` is declared in the
missing header `DisplayQueue.h`.  Per spec sections 3 and 7 it asserts that a
newly supplied FrameId is not behind the current one — "We expect hwc index
and timeline index to NOT move backwards" (comment at
`doAdvanceIssuedFrame`) — in the order defined by signed 32-bit subtraction.
Here it is the boolean the assertion checks; callers abort (`none`) when it
is false. -/
def FrameId.validateFutureFrame (cur id : FrameId) : Bool :=
  sge32 id.hwcIndex cur.hwcIndex && sge32 id.timelineIndex cur.timelineIndex

/-- The slice of a producer `Layer` snapshot that the queue reads: whether the
layer is disabled and whether rendering of its source buffer has completed
(the result of `waitRendering(0)`). -/
structure Layer where
  disabled : Bool := false
  renderComplete : Bool := false
deriving DecidableEq, Repr

instance : Inhabited Layer := ⟨{}⟩

/-- `DisplayQueue::FrameLayer`: snapshot of one producer layer. -/
structure FrameLayer where
  layer : Layer := {}
  isSet : Bool := false
deriving DecidableEq, Repr

instance : Inhabited FrameLayer := ⟨{}⟩

/-- `FrameLayer::set`: snapshot the producer layer (fence duplication and
buffer acquisition have no queue-state effect) and mark set. -/
def FrameLayer.setFrom (lay : Layer) : FrameLayer :=
  { layer := lay, isSet := true }

/-- `FrameLayer::reset`: close the owned acquire fence, optionally cancel the
release fence, clear the buffer reference and the set flag. -/
def FrameLayer.reset (l : FrameLayer) (_bCancel : Bool) : FrameLayer :=
  { l with isSet := false }

/-- `FrameLayer::isRenderingComplete`: a disabled layer is trivially
complete, otherwise poll `waitRendering(0)`. -/
def FrameLayer.isRenderingComplete (l : FrameLayer) : Bool :=
  l.layer.disabled || l.layer.renderComplete

/-- `Frame::mType` values: `eFT_CUSTOM` / `eFT_DISPLAY_QUEUE`. -/
inductive FrameType where
  | custom
  | displayQueue
deriving DecidableEq, Repr

/-- Minimum number of allocated layers (`cMinimumLayerAllocCount`). -/
def cMinimumLayerAllocCount : Nat := 8

/-- `DisplayQueue::Frame`: a pool-allocated work item. -/
structure Frame where
  ftype : FrameType := .custom
  layerAllocCount : Nat := 0
  layers : List FrameLayer := []
  layerCount : Nat := 0
  zorder : Nat := 0
  frameId : FrameId := {}
  effectiveFrame : FrameId := {}
  lockedForDisplay : Bool := false
  valid : Bool := false
deriving DecidableEq, Repr

instance : Inhabited Frame := ⟨{}⟩

/-- `Frame::set`.  `allocOk` stands for the success of the
`new FrameLayer[mLayerAllocCount]` allocation (the source checks the result
against NULL and fails with a cleared layer store).  Returns the C++ boolean
result together with the mutated frame: note that `mZOrder`, `mFrameId` and
`mbValid` are written before the allocation is attempted. -/
def Frame.set (f : Frame) (stack : List Layer) (zorder : Nat) (id : FrameId)
    (allocOk : Bool) : Bool × Frame :=
  let f1 : Frame := { f with zorder := zorder, frameId := id, valid := true }
  let stackSize := stack.length
  let bReAllocLayers := f1.layerAllocCount < stackSize
  if bReAllocLayers ∧ ¬ allocOk then
    (false, { f1 with layerAllocCount := 0, layerCount := 0, layers := [] })
  else
    let f2 : Frame :=
      if bReAllocLayers then
        { f1 with layerAllocCount := max stackSize cMinimumLayerAllocCount,
                  layers := List.replicate (max stackSize cMinimumLayerAllocCount) {} }
      else f1
    if f2.layerAllocCount < stackSize then
      (false, f2)
    else
      (true, { f2 with layerCount := stackSize,
                       layers := stack.map FrameLayer.setFrom ++ f2.layers.drop stackSize })

/-- `Frame::getLayerCount`. -/
def Frame.getLayerCount (f : Frame) : Nat := f.layerCount

/-- `Frame::editLayer`: `( mLayerCount && ( ly < mLayerCount ) ) ?
&maLayers[ly] : NULL`. -/
def Frame.editLayer (f : Frame) (ly : Nat) : Option FrameLayer :=
  if f.layerCount ≠ 0 ∧ ly < f.layerCount then f.layers.get? ly else none

/-- `Frame::getLayer` forwards to `editLayer`. -/
def Frame.getLayer (f : Frame) (ly : Nat) : Option FrameLayer :=
  f.editLayer ly

/-- `Frame::isRenderingComplete`: every layer in `[0, mLayerCount)` must be
complete. -/
def Frame.isRenderingComplete (f : Frame) : Bool :=
  (f.layers.take f.layerCount).all FrameLayer.isRenderingComplete

/-- `Frame::reset`: clear locked-for-display and reset the first
`mLayerCount` layers (note `mLayerCount` and `mbValid` are not cleared). -/
def Frame.reset (f : Frame) (bCancel : Bool) : Frame :=
  { f with lockedForDisplay := false,
           layers := (f.layers.take f.layerCount).map (FrameLayer.reset · bCancel)
                       ++ f.layers.drop f.layerCount }

/-- `Frame::invalidate` (used by `doInvalidateFrames`). -/
def Frame.invalidate (f : Frame) : Frame := { f with valid := false }

/-- A node of the work ring: either a pool frame (by pool index) or an event
(`Event::mId` plus its effective frame, assigned at enqueue). -/
inductive RingItem where
  | frameRef (idx : Nat)
  | event (id : Nat) (eff : FrameId)
deriving DecidableEq, Repr

/-- Whether a ring item is a FRAME work item. -/
def RingItem.isFrame : RingItem → Bool
  | .frameRef _ => true
  | .event _ _ => false

/-- The pool index of a FRAME ring item. -/
def RingItem.frameIdx? : RingItem → Option Nat
  | .frameRef i => some i
  | .event _ _ => none

/-- The whole `DisplayQueue` object state guarded by `mLockQueue`. -/
structure State where
  syncBeforeFlip : Bool := false
  ring : List RingItem := []
  queuedWork : Nat := 0
  queuedFrames : Nat := 0
  framesLockedForDisplay : Nat := 0
  framePoolUsed : Nat := 0
  framePoolPeak : Nat := 0
  consumedWork : Nat := 0
  consumedFramesSinceInit : Nat := 0
  consumerBlocked : Bool := false
  lastQueuedFrame : FrameId := {}
  lastIssuedFrame : FrameId := {}
  lastDroppedFrame : FrameId := {}
  pool : List Frame := []
  workerStarted : Bool := false
  workConsumedSignals : Nat := 0
  frameReleasedSignals : Nat := 0
  syncFlipCalls : Nat := 0
deriving DecidableEq, Repr

instance : Inhabited State := ⟨{}⟩

/-- Read a pool frame through its pointer (index). -/
def poolGet (st : State) (i : Nat) : Frame := st.pool.getD i {}

/-- Write a pool frame back through its pointer (index). -/
def setPool (st : State) (i : Nat) (f : Frame) : State :=
  { st with pool := st.pool.set i f }

/-- `WorkItem::isQueued` for a pool frame: its ring node is linked. -/
def State.isQueuedIdx (st : State) (i : Nat) : Bool :=
  decide (RingItem.frameRef i ∈ st.ring)

/-- The effective frame of a ring item (`WorkItem::getEffectiveFrame`). -/
def effOf (st : State) : RingItem → FrameId
  | .frameRef i => (poolGet st i).effectiveFrame
  | .event _ e => e

/-- Unlink one node from the ring (`WorkItem::dequeue` for an arbitrary
member; for the head this promotes its successor). -/
def ringErase : List RingItem → RingItem → List RingItem
  | [], _ => []
  | a :: rest, x => if a = x then rest else a :: ringErase rest x

/-- `DisplayQueue::doAdvanceIssuedFrame`: validate monotonicity, advance
`mLastIssuedFrame`, and notify `workConsumed`. -/
def doAdvanceIssuedFrame (id : FrameId) (st : State) : Option State :=
  if st.lastIssuedFrame.validateFutureFrame id then
    some { st with lastIssuedFrame := id,
                   workConsumedSignals := st.workConsumedSignals + 1 }
  else none

/-- `DisplayQueue::doQueueWork`: consistency assertions, issued-trails-queued
validation, append at the ring tail, bump counters, start and signal the
worker. -/
def doQueueWork (item : RingItem) (st : State) : Option State :=
  if (match item with
      | .frameRef i => st.isQueuedIdx i
      | .event _ _ => false) then none
  else if ¬ ((st.queuedWork = 0) ↔ (st.ring = [])) then none
  else if ¬ st.lastIssuedFrame.validateFutureFrame (effOf st item) then none
  else some { st with
    ring := st.ring ++ [item],
    queuedWork := st.queuedWork + 1,
    queuedFrames := if item.isFrame then st.queuedFrames + 1 else st.queuedFrames,
    workerStarted := true }

/-- `DisplayQueue::queueEvent`: the effective frame for an event is a repeat
of the last queued frame; then `doQueueWork`.  Returns `OK` (0). -/
def queueEvent (eid : Nat) (st : State) : Option (Int × State) :=
  (doQueueWork (.event eid st.lastQueuedFrame) st).map (fun st1 => (0, st1))

/-- `DisplayQueue::dropFrame`: record `mLastDroppedFrame`, dequeue, decrement
`mQueuedFrames`/`mQueuedWork`/`mFramePoolUsed`, reset with cancel, and notify
`workConsumed`.  Does not touch `mLastIssuedFrame`. -/
def dropFrame (i : Nat) (st : State) : Option State :=
  let f := poolGet st i
  if ¬ (i < st.pool.length) then none
  else if ¬ (f.ftype = .displayQueue) then none
  else if ¬ st.isQueuedIdx i then none
  else if f.lockedForDisplay then none
  else if st.queuedFrames = 0 ∨ st.queuedWork = 0 ∨ st.framePoolUsed = 0 then none
  else some { st with
    lastDroppedFrame := f.frameId,
    ring := ringErase st.ring (.frameRef i),
    queuedFrames := st.queuedFrames - 1,
    queuedWork := st.queuedWork - 1,
    framePoolUsed := st.framePoolUsed - 1,
    pool := st.pool.set i (f.reset true),
    workConsumedSignals := st.workConsumedSignals + 1 }

/-- The replacement test of the `findFree` scan:
`( pOldest == NULL ) || ( int32_t( pOldest->...timelineIndex - pFrame->...timelineIndex ) > 0 )`. -/
def scanOlder (old : Option (Nat × Frame)) (f : Frame) : Bool :=
  match old with
  | none => true
  | some (_, g) => sgt32 g.frameId.timelineIndex f.frameId.timelineIndex

/-- The scan loop of `DisplayQueue::findFree` over `maFrames`: skip
locked-for-display frames, return the first unqueued frame immediately
(`inl`), otherwise remember the queued frame with the oldest
`timelineIndex` under the signed 32-bit comparison (`inr`). -/
def findFreeScan (st : State) : List (Nat × Frame) → Option (Nat × Frame) →
    Nat ⊕ Option Nat
  | [], old => .inr (old.map Prod.fst)
  | (i, f) :: rest, old =>
    if f.lockedForDisplay then findFreeScan st rest old
    else if ¬ st.isQueuedIdx i then .inl i
    else findFreeScan st rest (if scanOlder old f then some (i, f) else old)

/-- `DisplayQueue::findFree`: first unused pool frame, else drop and return
the oldest queued one, else NULL (all frames locked on display). -/
def findFree (st : State) : Option (Option Nat × State) :=
  match findFreeScan st st.pool.enum none with
  | .inl i => some (some i, st)
  | .inr none => some (none, st)
  | .inr (some i) => (dropFrame i st).map (fun st1 => (some i, st1))

/-- Whether a ring item is a frame whose rendering has completed (the seed of
`doDropRedundantFrames`). -/
def isFrameAndComplete (st : State) : RingItem → Bool
  | .frameRef i => (poolGet st i).isRenderingComplete
  | .event _ _ => false

/-- The backward walk of `DisplayQueue::doDropRedundantFrames`, from the
second-from-tail item towards the head (`todo` is that processing order).
While a newer complete frame exists (`bNC`), unlocked frames are dropped;
otherwise `bNC` is refreshed from each frame met.  Events are skipped. -/
def redundantWalk : List RingItem → Bool → State → Option State
  | [], _, st => some st
  | it :: rest, bNC, st =>
    match it with
    | .event _ _ => redundantWalk rest bNC st
    | .frameRef i =>
      let f := poolGet st i
      if bNC then
        if f.lockedForDisplay then redundantWalk rest bNC st
        else
          match dropFrame i st with
          | none => none
          | some st1 => redundantWalk rest bNC st1
      else redundantWalk rest f.isRenderingComplete st

/-- `DisplayQueue::doDropRedundantFrames`: nothing to do with fewer than two
ring items; else seed `bNewerComplete` from the tail and walk backwards. -/
def doDropRedundantFrames (st : State) : Option State :=
  match st.ring.reverse with
  | [] => some st
  | [_] => some st
  | tailItem :: restRev => redundantWalk restRev (isFrameAndComplete st tailItem) st

/-- `DisplayQueue::limitUsedFrames`: drop redundant frames first; the bounded
wait on `workConsumed` past the pool soft limit is compiled out in the source
(`#ifdef uncomment`), so beyond the drop the function has no further
effect. -/
def limitUsedFrames (st : State) : Option State :=
  doDropRedundantFrames st

/-- `-ENOSYS`, the error code `queueFrame` returns on both of its failure
paths. -/
def eNoSys : Int := -38

/-- `DisplayQueue::queueFrame`: validate the queued-frame sequence, limit
used frames, take a free pool frame (fail with `-ENOSYS` if none), charge the
pool, set the frame (fail with `-ENOSYS` if layer allocation fails), stamp
its effective frame, update `mLastQueuedFrame` and queue it. -/
def queueFrame (stack : List Layer) (zorder : Nat) (id : FrameId)
    (allocOk : Bool) (st : State) : Option (Int × State) :=
  if ¬ st.lastQueuedFrame.validateFutureFrame id then none
  else
    match limitUsedFrames st with
    | none => none
    | some st1 =>
      match findFree st1 with
      | none => none
      | some (none, st2) => some (eNoSys, st2)
      | some (some i, st2) =>
        if ¬ ((poolGet st2 i).ftype = .displayQueue) then none
        else
          let used := st2.framePoolUsed + 1
          let st3 := { st2 with framePoolUsed := used,
                                framePoolPeak := max st2.framePoolPeak used }
          let sr := (poolGet st3 i).set stack zorder id allocOk
          let st4 := setPool st3 i sr.2
          if ¬ sr.1 then some (eNoSys, st4)
          else
            let st5 := setPool st4 i { sr.2 with effectiveFrame := id }
            let st6 := { st5 with lastQueuedFrame := id }
            match doQueueWork (.frameRef i) st6 with
            | none => none
            | some st7 => some (0, st7)

/-- Mutate the tail item's effective frame (the coalescing write of
`queueDrop`). -/
def setEffOfTail (id : FrameId) (st : State) : State :=
  match st.ring.getLast? with
  | none => st
  | some (.frameRef i) => setPool st i { poolGet st i with effectiveFrame := id }
  | some (.event e _) => { st with ring := st.ring.dropLast ++ [.event e id] }

/-- `DisplayQueue::queueDrop`: validate monotonicity; with an empty ring
advance the issued frame immediately (signalling `workConsumed`), else
coalesce into the tail item's effective frame; update `mLastQueuedFrame`. -/
def queueDrop (id : FrameId) (st : State) : Option State :=
  if ¬ st.lastQueuedFrame.validateFutureFrame id then none
  else
    match st.ring.getLast? with
    | none =>
      (doAdvanceIssuedFrame id st).map (fun st1 => { st1 with lastQueuedFrame := id })
    | some _ => some { setEffOfTail id st with lastQueuedFrame := id }

/-- The iteration of `DisplayQueue::dropAllFrames` over the ring snapshot:
drop every FRAME that is not locked for display and is a display-queue
frame. -/
def dropAllLoop : List RingItem → State → Option State
  | [], st => some st
  | it :: rest, st =>
    match it with
    | .event _ _ => dropAllLoop rest st
    | .frameRef i =>
      let f := poolGet st i
      if ¬ f.lockedForDisplay ∧ f.ftype = .displayQueue then
        match dropFrame i st with
        | none => none
        | some st1 => dropAllLoop rest st1
      else dropAllLoop rest st

/-- `DisplayQueue::dropAllFrames`. -/
def dropAllFrames (st : State) : Option State :=
  dropAllLoop st.ring st

/-- `DisplayQueue::dropRedundantFrames` (public, takes the lock). -/
def dropRedundantFrames (st : State) : Option State :=
  doDropRedundantFrames st

/-- Modelled from the spec: `lockFrameForDisplay` is declared in the missing
header; per spec section 4.6 it sets the frame's flag and increments
`mFramesLockedForDisplay`. -/
def lockFrameForDisplay (i : Nat) (st : State) : State :=
  let st1 := setPool st i { poolGet st i with lockedForDisplay := true }
  { st1 with framesLockedForDisplay := st1.framesLockedForDisplay + 1 }

/-- Modelled from the spec: `unlockFrameForDisplay`, the inverse of
`lockFrameForDisplay`. -/
def unlockFrameForDisplay (i : Nat) (st : State) : State :=
  let st1 := setPool st i { poolGet st i with lockedForDisplay := false }
  { st1 with framesLockedForDisplay := st1.framesLockedForDisplay - 1 }

/-- `DisplayQueue::doConsumeEvent`: validate, issue the event to the backend
in an unlocked window (no queue-state effect), dequeue the head, bump
consumed counters, advance the issued frame from the event's effective frame,
and delete the event (it exists nowhere else in the state). -/
def doConsumeEvent (st : State) : Option State :=
  match st.ring with
  | .event _ eff :: rest =>
    if st.queuedWork = 0 then none
    else if ¬ st.lastIssuedFrame.validateFutureFrame eff then none
    else
      doAdvanceIssuedFrame eff
        { st with ring := rest,
                  queuedWork := st.queuedWork - 1,
                  consumedWork := st.consumedWork + 1 }
  | _ => none

/-- The tail of `DisplayQueue::doConsumeFrame` after any sync-before-flip
handling: dequeue the (locked) head frame, decrement queue counters, bump
consumed counters, flip it in an unlocked window (the backend keeps it
locked-for-display until `releaseFrame`), and advance the issued frame from
the captured effective frame. -/
def consumeFrameFlip (st : State) : Option State :=
  match st.ring with
  | .frameRef i :: rest =>
    let f := poolGet st i
    if st.queuedFrames = 0 ∨ st.queuedWork = 0 then none
    else if ¬ sge32 f.effectiveFrame.hwcIndex f.frameId.hwcIndex then none
    else
      doAdvanceIssuedFrame f.effectiveFrame
        { st with ring := rest,
                  queuedFrames := st.queuedFrames - 1,
                  queuedWork := st.queuedWork - 1,
                  consumedFramesSinceInit := st.consumedFramesSinceInit + 1,
                  consumedWork := st.consumedWork + 1 }
  | _ => none

/-- `DisplayQueue::doConsumeFrame`: assertions, lock the head frame for
display, optionally (SYNC_BEFORE_FLIP) wait for rendering in an unlocked
window, re-check, unlock, drop redundant frames, return early if the head is
no longer a frame, re-lock the new head; then flip (`consumeFrameFlip`). -/
def doConsumeFrame (st : State) : Option State :=
  match st.ring with
  | .frameRef i :: _ =>
    let f := poolGet st i
    if st.queuedWork = 0 ∨ st.queuedFrames = 0 then none
    else if ¬ (st.framesLockedForDisplay ≤ 1) then none
    else if ¬ (f.ftype = .displayQueue) then none
    else if ¬ st.lastIssuedFrame.validateFutureFrame f.effectiveFrame then none
    else if ¬ st.lastIssuedFrame.validateFutureFrame f.frameId then none
    else
      let stL := lockFrameForDisplay i st
      if st.syncBeforeFlip then
        if ¬ (stL.ring.head? = some (.frameRef i)) then none
        else
          let stU := unlockFrameForDisplay i stL
          match doDropRedundantFrames stU with
          | none => none
          | some st2 =>
            match st2.ring with
            | [] => none
            | .event _ _ :: _ => some st2
            | .frameRef j :: _ =>
              let st3 := lockFrameForDisplay j st2
              if ¬ ((poolGet st3 j).ftype = .displayQueue) then none
              else consumeFrameFlip st3
      else consumeFrameFlip stL
  | _ => none

/-- `DisplayQueue::consumeWork` / `doConsumeWork`: false when the ring is
empty, else dispatch on the head item's type. -/
def consumeWork (st : State) : Option (Bool × State) :=
  match st.ring with
  | [] => if st.queuedWork = 0 then some (false, st) else none
  | .frameRef _ :: _ =>
    if st.queuedWork = 0 then none
    else (doConsumeFrame st).map (fun st1 => (true, st1))
  | .event _ _ :: _ =>
    if st.queuedWork = 0 then none
    else (doConsumeEvent st).map (fun st1 => (true, st1))

/-- `DisplayQueue::releaseFrame` / `doReleaseFrame`: assertions, reset
without cancel, decrement `mFramesLockedForDisplay` and `mFramePoolUsed`,
notify `frameReleased`. -/
def releaseFrame (i : Nat) (st : State) : Option State :=
  let f := poolGet st i
  if ¬ (i < st.pool.length) then none
  else if ¬ (f.ftype = .displayQueue) then none
  else if ¬ f.lockedForDisplay then none
  else if st.framesLockedForDisplay = 0 ∨ st.framePoolUsed = 0 then none
  else
    let st1 := setPool st i (f.reset false)
    some { st1 with
      framesLockedForDisplay := st1.framesLockedForDisplay - 1,
      framePoolUsed := st1.framePoolUsed - 1,
      frameReleasedSignals := st1.frameReleasedSignals + 1 }

/-- The iteration of `DisplayQueue::doInvalidateFrames`: mark every unlocked
display-queue frame in the ring invalid. -/
def invalidateLoop : List RingItem → State → State
  | [], st => st
  | it :: rest, st =>
    match it with
    | .event _ _ => invalidateLoop rest st
    | .frameRef i =>
      let f := poolGet st i
      if ¬ f.lockedForDisplay ∧ f.ftype = .displayQueue then
        invalidateLoop rest (setPool st i f.invalidate)
      else invalidateLoop rest st

/-- `DisplayQueue::doInvalidateFrames`. -/
def doInvalidateFrames (st : State) : State :=
  invalidateLoop st.ring st

/-- `Worker::getId` returns `std::this_thread::get_id()` — the id of the
calling thread, not the worker's — so `getWorkerTid() == this_id` holds in
`flush` exactly when a worker exists (`mpWorker != NULL`). -/
def workerTidEqCaller (st : State) : Bool := st.workerStarted

/-- `DisplayQueue::doFlush`.  The wait on `workConsumed` inside the loop is
compiled out in the source (`#ifdef uncomment`); the loop body otherwise only
signals the worker, so it has no queue-state effect, and the code after the
loop does not depend on how the loop exited: if the consumer is blocked
return false, else release the lock, `syncFlip`, re-take the lock and return
true. -/
def doFlush (st : State) : Bool × State :=
  if st.consumerBlocked then (false, st)
  else (true, { st with syncFlipCalls := st.syncFlipCalls + 1 })

/-- `DisplayQueue::flush`: `bFlushed = (getWorkerTid() != this_id) &&
!mbConsumerBlocked && doFlush(..)`, with short-circuit evaluation; when not
flushed, invalidate all currently queued frames. -/
def flush (_frameIndex : Nat) (_timeoutNs : Int) (st : State) : Bool × State :=
  if ¬ workerTidEqCaller st ∧ ¬ st.consumerBlocked then
    match doFlush st with
    | (true, st1) => (true, st1)
    | (false, st1) => (false, doInvalidateFrames st1)
  else (false, doInvalidateFrames st)

/-- `DisplayQueue::consumerBlocked`. -/
def consumerBlockedOp (st : State) : State :=
  { st with consumerBlocked := true,
            workConsumedSignals := st.workConsumedSignals + 1 }

/-- `DisplayQueue::consumerUnblocked` (asserts the blocked flag). -/
def consumerUnblockedOp (st : State) : Option State :=
  if ¬ st.consumerBlocked then none
  else some { st with consumerBlocked := false,
                      workConsumedSignals := st.workConsumedSignals + 1 }

/-- `DisplayQueue::init`. -/
def initOp (st : State) : State :=
  { st with consumedFramesSinceInit := 0 }

/-- One public operation on the queue, for quantifying over operation
sequences. -/
inductive Op where
  | opQueueEvent (eid : Nat)
  | opQueueFrame (stack : List Layer) (zorder : Nat) (id : FrameId) (allocOk : Bool)
  | opQueueDrop (id : FrameId)
  | opDropAllFrames
  | opDropRedundantFrames
  | opConsumeWork
  | opReleaseFrame (i : Nat)
  | opFlush (frameIndex : Nat) (timeoutNs : Int)
  | opConsumerBlocked
  | opConsumerUnblocked
  | opInit
deriving DecidableEq, Repr

/-- Apply one public operation (discarding its return value). -/
def applyOp : Op → State → Option State
  | .opQueueEvent eid, st => (queueEvent eid st).map Prod.snd
  | .opQueueFrame stack z id ok, st => (queueFrame stack z id ok st).map Prod.snd
  | .opQueueDrop id, st => queueDrop id st
  | .opDropAllFrames, st => dropAllFrames st
  | .opDropRedundantFrames, st => dropRedundantFrames st
  | .opConsumeWork, st => (consumeWork st).map Prod.snd
  | .opReleaseFrame i, st => releaseFrame i st
  | .opFlush fi tn, st => some (flush fi tn st).2
  | .opConsumerBlocked, st => some (consumerBlockedOp st)
  | .opConsumerUnblocked, st => consumerUnblockedOp st
  | .opInit, st => some (initOp st)

/-- The one operation whose layer (re)allocation can fail: `queueFrame` with
allocation outcome `false`.  Every other operation performs no allocation. -/
def Op.mayFailAlloc : Op → Bool
  | .opQueueFrame _ _ _ ok => !ok
  | _ => false

/-- The number of display-queue (pool) frames currently linked in the ring:
the quantity the spec's pool-accounting invariant counts. -/
def countDQ (pool : List Frame) (r : List RingItem) : Nat :=
  r.countP (fun it =>
    match it with
    | .frameRef i => decide ((pool.getD i {}).ftype = .displayQueue)
    | .event _ _ => false)

/-- Spec invariant 2 (section 3): `framePoolUsed = (# pool frames currently
queued) + framesLockedForDisplay`. -/
def poolInv (st : State) : Prop :=
  st.framePoolUsed = countDQ st.pool st.ring + st.framesLockedForDisplay

instance (st : State) : Decidable (poolInv st) :=
  inferInstanceAs (Decidable (_ = _))

/-- The drop set of the backward walk described for `dropRedundantFrames`:
processing items from the tail backwards with the `newerComplete` flag,
collect the frames that get dropped — a frame met while `newerComplete`
holds, unless it is locked for display; a frame met otherwise refreshes
`newerComplete`; non-frame items are never collected. -/
def specRedundantDrops (pool : List Frame) : List RingItem → Bool → List RingItem
  | [], _ => []
  | .event _ _ :: rest, b => specRedundantDrops pool rest b
  | .frameRef i :: rest, b =>
    let f := pool.getD i {}
    if b then
      if f.lockedForDisplay then specRedundantDrops pool rest b
      else .frameRef i :: specRedundantDrops pool rest b
    else specRedundantDrops pool rest f.isRenderingComplete

/-- Remove a list of nodes from the ring, one unlink each. -/
def removeItems (r : List RingItem) : List RingItem → List RingItem
  | [] => r
  | d :: ds => removeItems (ringErase r d) ds

/-- The pool indices of the FRAME items of a ring segment, in order. -/
def ringIdxs : List RingItem → List Nat
  | [] => []
  | .frameRef i :: rest => i :: ringIdxs rest
  | .event _ _ :: rest => ringIdxs rest

/-- The drop set of a whole `dropRedundantFrames` run as the claim describes
it: with fewer than two ring items nothing is dropped; otherwise walk from
the item before the tail towards the head with `newerComplete` seeded from
the tail frame's rendering-complete state. -/
def redundantDropSet (st : State) : List RingItem :=
  match st.ring.reverse with
  | [] => []
  | [_] => []
  | tailItem :: restRev =>
      specRedundantDrops st.pool restRev (isFrameAndComplete st tailItem)

/-- A fresh display-queue pool frame (as after construction, where
`setType( Frame::eFT_DISPLAY_QUEUE )` is applied to every pool slot). -/
def dqFresh : Frame := { ftype := .displayQueue }

/-- A display-queue pool frame locked for display. -/
def dqLocked : Frame := { ftype := .displayQueue, lockedForDisplay := true }

/-- A display-queue pool frame carrying frame id `(n, n)`, with one layer
whose rendering-complete state is `complete`. -/
def dqQueued (n : Nat) (complete : Bool) : Frame :=
  { ftype := .displayQueue, frameId := ⟨n, n⟩, effectiveFrame := ⟨n, n⟩,
    layerAllocCount := 8, layerCount := 1,
    layers := FrameLayer.setFrom { renderComplete := complete } :: List.replicate 7 {} }

/-- Sample state: empty queue over a two-frame pool. -/
def stEmpty2 : State := { pool := [dqFresh, dqFresh] }

/-- Sample state: a single-frame pool whose only frame is on display. -/
def stAllLocked : State :=
  { pool := [dqLocked], framesLockedForDisplay := 1, framePoolUsed := 1 }

/-- The state `queueDrop (3,3)` produces from `stEmpty2`. -/
def stEmpty2Dropped : State :=
  { stEmpty2 with
      lastQueuedFrame := ⟨3, 3⟩, lastIssuedFrame := ⟨3, 3⟩,
      workConsumedSignals := 1 }

/-- Sample state: one queued event `(id 7, effective (1,1))`. -/
def stEventHead : State :=
  { ring := [.event 7 ⟨1, 1⟩], queuedWork := 1, lastQueuedFrame := ⟨1, 1⟩ }

/-- The state consuming the event of `stEventHead` produces. -/
def stEventDone : State :=
  { ring := [], queuedWork := 0, consumedWork := 1,
    lastQueuedFrame := ⟨1, 1⟩, lastIssuedFrame := ⟨1, 1⟩,
    workConsumedSignals := 1 }

/-- Sample state: two queued, rendering-complete frames `(1,1)` and
`(2,2)`. -/
def stTwoQueued : State :=
  { pool := [dqQueued 1 true, dqQueued 2 true],
    ring := [.frameRef 0, .frameRef 1],
    queuedWork := 2, queuedFrames := 2, framePoolUsed := 2,
    lastQueuedFrame := ⟨2, 2⟩ }

/-- The state `dropRedundantFrames` produces from `stTwoQueued`: frame `(2,2)`
at the tail is rendering-complete, so frame `(1,1)` is dropped. -/
def stTwoQueuedDropped : State :=
  { stTwoQueued with
      ring := [.frameRef 1],
      queuedWork := 1, queuedFrames := 1, framePoolUsed := 1,
      lastDroppedFrame := ⟨1, 1⟩,
      pool := [(dqQueued 1 true).reset true, dqQueued 2 true],
      workConsumedSignals := 1 }

/-- What C5 asserts of one `findFree` run returning `(o, st')` from `st`:
a `none` result means the state is untouched and every pool frame is locked
for display (and conversely); a returned index is in range and unlocked; if
it was not queued the state is untouched; if it was queued, it was dropped
from the ring, no unlocked pool frame was unqueued (else that one would have
been returned instead), and among the unlocked queued frames the returned
one has the smallest `timelineIndex`. -/
def findFreeSpecHolds (st : State) (o : Option Nat) (st' : State) : Prop :=
  (o = none → st' = st ∧ ∀ g ∈ st.pool, g.lockedForDisplay = true) ∧
  ((∀ g ∈ st.pool, g.lockedForDisplay = true) → o = none) ∧
  (∀ i, o = some i →
    i < st.pool.length ∧ (poolGet st i).lockedForDisplay = false ∧
    (st.isQueuedIdx i = false → st' = st) ∧
    (st.isQueuedIdx i = true →
      st'.ring = ringErase st.ring (.frameRef i) ∧
      (∀ j, j < st.pool.length → (poolGet st j).lockedForDisplay = false →
        st.isQueuedIdx j = true) ∧
      (∀ j, j < st.pool.length → (poolGet st j).lockedForDisplay = false →
        st.isQueuedIdx j = true →
        (poolGet st i).frameId.timelineIndex ≤ (poolGet st j).frameId.timelineIndex)))

theorem m32_pos : 0 < m32 := by decide

theorem sub32_self (a : Nat) : sub32 a a = 0 := by
  have h : a % m32 < m32 := Nat.mod_lt _ m32_pos
  unfold sub32
  rw [Nat.add_sub_cancel' (Nat.le_of_lt h)]
  exact Nat.mod_self m32

theorem validateFutureFrame_refl (a : FrameId) : a.validateFutureFrame a = true := by
  unfold FrameId.validateFutureFrame sge32
  rw [sub32_self, sub32_self]
  decide

/-- The fields of the queue state that `dropFrame` leaves untouched. -/
def coreFieldsEq (s t : State) : Prop :=
  s.lastIssuedFrame = t.lastIssuedFrame ∧
  s.lastQueuedFrame = t.lastQueuedFrame ∧
  s.framesLockedForDisplay = t.framesLockedForDisplay ∧
  s.consumerBlocked = t.consumerBlocked ∧
  s.workerStarted = t.workerStarted ∧
  s.syncFlipCalls = t.syncFlipCalls ∧
  s.syncBeforeFlip = t.syncBeforeFlip ∧
  s.pool.length = t.pool.length

theorem coreFieldsEq_refl (s : State) : coreFieldsEq s s :=
  ⟨rfl, rfl, rfl, rfl, rfl, rfl, rfl, rfl⟩

theorem coreFieldsEq_trans {s t u : State} (h1 : coreFieldsEq s t)
    (h2 : coreFieldsEq t u) : coreFieldsEq s u := by
  obtain ⟨a1, b1, c1, d1, e1, f1, g1, h1⟩ := h1
  obtain ⟨a2, b2, c2, d2, e2, f2, g2, h2⟩ := h2
  exact ⟨a1.trans a2, b1.trans b2, c1.trans c2, d1.trans d2,
         e1.trans e2, f1.trans f2, g1.trans g2, h1.trans h2⟩

theorem dropFrame_core (i : Nat) (st st' : State)
    (h : dropFrame i st = some st') : coreFieldsEq st' st := by
  unfold dropFrame at h
  dsimp only at h
  split_ifs at h
  any_goals simp at h
  subst h
  exact ⟨rfl, rfl, rfl, rfl, rfl, rfl, rfl, by simp⟩

theorem redundantWalk_core : ∀ (todo : List RingItem) (b : Bool) (st st' : State),
    redundantWalk todo b st = some st' → coreFieldsEq st' st := by
  intro todo
  induction todo with
  | nil =>
    intro b st st' h
    unfold redundantWalk at h
    injection h with h
    exact h ▸ coreFieldsEq_refl st
  | cons it rest ih =>
    intro b st st' h
    unfold redundantWalk at h
    cases it with
    | event e eff => exact ih _ _ _ h
    | frameRef i =>
      dsimp only at h
      split at h
      · split at h
        · exact ih _ _ _ h
        · cases hdrop : dropFrame i st with
          | none => rw [hdrop] at h; exact absurd h (by simp)
          | some st1 =>
            rw [hdrop] at h
            exact coreFieldsEq_trans (ih _ _ _ h) (dropFrame_core i st st1 hdrop)
      · exact ih _ _ _ h

theorem doDropRedundantFrames_core (st st' : State)
    (h : doDropRedundantFrames st = some st') : coreFieldsEq st' st := by
  unfold doDropRedundantFrames at h
  split at h
  · injection h with h; exact h ▸ coreFieldsEq_refl st
  · injection h with h; exact h ▸ coreFieldsEq_refl st
  · exact redundantWalk_core _ _ _ _ h

theorem findFree_core (st : State) (o : Option Nat) (st' : State)
    (h : findFree st = some (o, st')) : coreFieldsEq st' st := by
  unfold findFree at h
  split at h
  · injection h with h; cases h; exact coreFieldsEq_refl st
  · injection h with h; cases h; exact coreFieldsEq_refl st
  · rename_i i heq
    cases hdrop : dropFrame i st with
    | none => rw [hdrop] at h; exact absurd h (by simp)
    | some st1 =>
      rw [hdrop] at h
      injection h with h
      cases h
      exact dropFrame_core i st _ hdrop

theorem doQueueWork_fields (item : RingItem) (st st' : State)
    (h : doQueueWork item st = some st') :
    st'.ring = st.ring ++ [item] ∧
    st'.lastIssuedFrame = st.lastIssuedFrame ∧
    st'.lastQueuedFrame = st.lastQueuedFrame ∧
    st'.queuedWork = st.queuedWork + 1 ∧
    st'.framesLockedForDisplay = st.framesLockedForDisplay ∧
    st'.framePoolUsed = st.framePoolUsed ∧
    st'.pool = st.pool := by
  unfold doQueueWork at h
  split_ifs at h
  any_goals simp at h
  all_goals subst h
  all_goals exact ⟨rfl, rfl, rfl, rfl, rfl, rfl, rfl⟩

/-- Everything `queueFrame` guarantees about the tracking ids on each of its
exits: the issued frame is never touched, and the queued frame is advanced
to `id` exactly on the success exit. -/
theorem queueFrame_tracking (stack : List Layer) (z : Nat) (id : FrameId)
    (ok : Bool) (st : State) (r : Int) (st' : State)
    (h : queueFrame stack z id ok st = some (r, st')) :
    st'.lastIssuedFrame = st.lastIssuedFrame ∧
    (r ≠ 0 → st'.lastQueuedFrame = st.lastQueuedFrame) ∧
    (r = 0 → st'.lastQueuedFrame = id) := by
  unfold queueFrame at h
  split at h
  · exact absurd h (by simp)
  · split at h
    · exact absurd h (by simp)
    · rename_i st1 hlim
      have hc1 : coreFieldsEq st1 st := doDropRedundantFrames_core st st1 hlim
      split at h
      · exact absurd h (by simp)
      · rename_i st2 hff
        injection h with h
        injection h with h2 h3
        subst h3
        have hc2 : coreFieldsEq st2 st :=
          coreFieldsEq_trans (findFree_core st1 none st2 hff) hc1
        refine ⟨hc2.1, fun _ => hc2.2.1, fun hr => ?_⟩
        rw [← h2] at hr
        exact absurd hr (by unfold eNoSys; decide)
      · rename_i i st2 hff
        have hc2 : coreFieldsEq st2 st :=
          coreFieldsEq_trans (findFree_core st1 (some i) st2 hff) hc1
        split at h
        · exact absurd h (by simp)
        · dsimp only at h
          split at h
          · injection h with h
            injection h with h2 h3
            subst h3
            refine ⟨hc2.1, fun _ => hc2.2.1, fun hr => ?_⟩
            rw [← h2] at hr
            exact absurd hr (by unfold eNoSys; decide)
          · split at h
            · exact absurd h (by simp)
            · rename_i st7 hqw
              injection h with h
              injection h with h2 h3
              subst h3
              have hq := doQueueWork_fields _ _ _ hqw
              refine ⟨?_, fun hr => absurd h2.symm hr, fun _ => ?_⟩
              · rw [hq.2.1]
                exact hc2.1
              · rw [hq.2.2.1]

theorem poolGet_setPool_self (st : State) (i : Nat) (f : Frame)
    (h : i < st.pool.length) : poolGet (setPool st i f) i = f := by
  unfold poolGet setPool
  simp only [List.getD_eq_getElem?_getD]
  rw [List.getElem?_set_self h]
  rfl

theorem poolGet_setPool_ne (st : State) (i j : Nat) (f : Frame)
    (hne : i ≠ j) : poolGet (setPool st i f) j = poolGet st j := by
  unfold poolGet setPool
  simp only [List.getD_eq_getElem?_getD]
  rw [List.getElem?_set_ne hne]

theorem doAdvanceIssuedFrame_eq (id : FrameId) (st st' : State)
    (h : doAdvanceIssuedFrame id st = some st') :
    st'.lastIssuedFrame = id ∧
    st'.workConsumedSignals = st.workConsumedSignals + 1 ∧
    st'.ring = st.ring ∧
    st'.lastQueuedFrame = st.lastQueuedFrame ∧
    st'.queuedWork = st.queuedWork ∧
    st'.queuedFrames = st.queuedFrames ∧
    st'.framePoolUsed = st.framePoolUsed ∧
    st'.framesLockedForDisplay = st.framesLockedForDisplay ∧
    st'.pool = st.pool ∧
    st'.consumedWork = st.consumedWork ∧
    st.lastIssuedFrame.validateFutureFrame id = true := by
  unfold doAdvanceIssuedFrame at h
  split at h
  · injection h with h
    subst h
    exact ⟨rfl, rfl, rfl, rfl, rfl, rfl, rfl, rfl, rfl, rfl, by assumption⟩
  · exact absurd h (by simp)

/-- C9: `Frame::getLayer` (through `editLayer`) is total over any index: it
returns NULL exactly when `mLayerCount` is zero or `ly >= mLayerCount`, and
otherwise returns the in-bounds element `ly` of the layer array, so the
public layer accessor never indexes out of bounds (hypothesis: the layer
store is at least `mLayerCount` long, which `Frame::set` maintains). -/
theorem frame_editLayer_bounds (f : Frame) (ly : Nat)
    (h : f.layerCount ≤ f.layers.length) :
    f.getLayer ly = f.editLayer ly ∧
    (f.editLayer ly = none ↔ (f.layerCount = 0 ∨ f.layerCount ≤ ly)) ∧
    (∀ l, f.editLayer ly = some l → ly < f.layerCount ∧ f.layers.get? ly = some l) := by
  refine ⟨rfl, ?_, ?_⟩
  · unfold Frame.editLayer
    split
    · rename_i hc
      have hsome : f.layers.get? ly ≠ none := by
        intro hn
        rw [List.get?_eq_none] at hn
        omega
      constructor
      · intro hn
        exact absurd hn hsome
      · intro hor
        exact absurd hor (by omega)
    · rename_i hc
      have hor : f.layerCount = 0 ∨ f.layerCount ≤ ly := by
        by_cases h0 : f.layerCount = 0
        · exact Or.inl h0
        · right
          by_contra hlt
          exact hc ⟨h0, by omega⟩
      simp [hor]
  · intro l hl
    unfold Frame.editLayer at hl
    split at hl
    · rename_i hc
      exact ⟨hc.2, hl⟩
    · exact absurd hl (by simp)

theorem frame_editLayer_bounds_witness :
    (dqQueued 1 true).layerCount ≤ (dqQueued 1 true).layers.length ∧
    ((dqQueued 1 true).editLayer 0 = none ↔
      ((dqQueued 1 true).layerCount = 0 ∨ (dqQueued 1 true).layerCount ≤ 0)) :=
  ⟨by decide, (frame_editLayer_bounds (dqQueued 1 true) 0 (by decide)).2.1⟩

/-- C10: a failed `queueFrame` (either error exit) leaves `mLastQueuedFrame`
unchanged: the id is recorded only after `findFree` and `Frame::set` have
both succeeded. -/
theorem queueFrame_error_preserves_lastQueued (stack : List Layer) (z : Nat)
    (id : FrameId) (ok : Bool) (st : State) (r : Int) (st' : State)
    (h : queueFrame stack z id ok st = some (r, st')) (hr : r ≠ 0) :
    st'.lastQueuedFrame = st.lastQueuedFrame :=
  (queueFrame_tracking stack z id ok st r st' h).2.1 hr

theorem queueFrame_error_preserves_lastQueued_witness :
    stAllLocked.lastQueuedFrame = stAllLocked.lastQueuedFrame :=
  queueFrame_error_preserves_lastQueued [{}] 0 ⟨1, 1⟩ true stAllLocked
    eNoSys stAllLocked (by decide) (by decide)

/-- C3: `queueDrop(id)` with a validated id: on an empty ring it immediately
advances `mLastIssuedFrame` to `id` and signals `workConsumed`; on a
non-empty ring it rewrites the tail item's effective frame to `id` and
leaves `mLastIssuedFrame` alone; in both cases `mLastQueuedFrame := id` and
no work item is added (the ring length is unchanged).  The hypothesis `hwf`
says the ring's frame pointers are valid pool pointers. -/
theorem queueDrop_spec (id : FrameId) (st st' : State)
    (hwf : ∀ i, RingItem.frameRef i ∈ st.ring → i < st.pool.length)
    (h : queueDrop id st = some st') :
    st'.lastQueuedFrame = id ∧
    st'.ring.length = st.ring.length ∧
    (st.ring = [] → st'.lastIssuedFrame = id ∧
      st'.workConsumedSignals = st.workConsumedSignals + 1) ∧
    (st.ring ≠ [] → st'.lastIssuedFrame = st.lastIssuedFrame ∧
      st'.ring.getLast?.map (effOf st') = some id) := by
  unfold queueDrop at h
  split at h
  · exact absurd h (by simp)
  · split at h
    · rename_i hlast
      have hemp : st.ring = [] := List.getLast?_eq_none_iff.mp hlast
      cases hadv : doAdvanceIssuedFrame id st with
      | none => rw [hadv] at h; exact absurd h (by simp)
      | some st1 =>
        rw [hadv] at h
        injection h with h
        subst h
        obtain ⟨ha1, ha2, ha3, _⟩ := doAdvanceIssuedFrame_eq id st st1 hadv
        refine ⟨rfl, ?_, fun _ => ⟨ha1, ha2⟩, fun hne => absurd hemp hne⟩
        show st1.ring.length = st.ring.length
        rw [ha3]
    · rename_i tl0 hlast
      injection h with h
      subst h
      have hne : st.ring ≠ [] := by
        intro hemp
        rw [hemp] at hlast
        exact absurd hlast (by simp)
      cases tl0 with
      | frameRef i =>
        have hmem : RingItem.frameRef i ∈ st.ring := List.mem_of_mem_getLast? hlast
        have hlt : i < st.pool.length := hwf i hmem
        have hset : setEffOfTail id st =
            setPool st i { poolGet st i with effectiveFrame := id } := by
          unfold setEffOfTail
          rw [hlast]
        rw [hset]
        refine ⟨rfl, rfl, fun hemp => absurd hemp hne, fun _ => ⟨rfl, ?_⟩⟩
        have hring : ({ setPool st i { poolGet st i with effectiveFrame := id } with
            lastQueuedFrame := id } : State).ring = st.ring := rfl
        rw [hring, hlast, Option.map_some']
        show some (poolGet { setPool st i { poolGet st i with effectiveFrame := id } with
          lastQueuedFrame := id } i).effectiveFrame = some id
        have hpg : poolGet { setPool st i { poolGet st i with effectiveFrame := id } with
            lastQueuedFrame := id } i = { poolGet st i with effectiveFrame := id } :=
          poolGet_setPool_self st i _ hlt
        rw [hpg]
      | event e eff =>
        have hset : setEffOfTail id st =
            { st with ring := st.ring.dropLast ++ [.event e id] } := by
          unfold setEffOfTail
          rw [hlast]
        rw [hset]
        have hlen : 0 < st.ring.length := List.length_pos.mpr hne
        refine ⟨rfl, ?_, fun hemp => absurd hemp hne, fun _ => ⟨rfl, ?_⟩⟩
        · show (st.ring.dropLast ++ [RingItem.event e id]).length = st.ring.length
          simp only [List.length_append, List.length_dropLast, List.length_cons,
            List.length_nil]
          omega
        · show (st.ring.dropLast ++ [RingItem.event e id]).getLast?.map _ = some id
          rw [List.getLast?_concat, Option.map_some']
          rfl

theorem queueDrop_spec_witness :
    stEmpty2Dropped.lastQueuedFrame = ⟨3, 3⟩ ∧
    stEmpty2Dropped.ring.length = stEmpty2.ring.length ∧
    (stEmpty2.ring = [] → stEmpty2Dropped.lastIssuedFrame = ⟨3, 3⟩ ∧
      stEmpty2Dropped.workConsumedSignals = stEmpty2.workConsumedSignals + 1) ∧
    (stEmpty2.ring ≠ [] → stEmpty2Dropped.lastIssuedFrame = stEmpty2.lastIssuedFrame ∧
      stEmpty2Dropped.ring.getLast?.map (effOf stEmpty2Dropped) = some ⟨3, 3⟩) :=
  queueDrop_spec ⟨3, 3⟩ stEmpty2 stEmpty2Dropped
    (by intro i hi; simp [stEmpty2] at hi) (by decide)

theorem poolGet_setPool (st : State) (i j : Nat) (f : Frame) :
    poolGet (setPool st i f) j =
      if i = j ∧ i < st.pool.length then f else poolGet st j := by
  unfold poolGet setPool
  simp only [List.getD_eq_getElem?_getD]
  rw [List.getElem?_set]
  by_cases hij : i = j
  · subst hij
    by_cases hlen : i < st.pool.length
    · simp [hlen]
    · simp only [hlen, and_false, if_false, if_true, true_and]
      rw [List.getElem?_eq_none (by omega)]
  · simp [hij]

/-- C8: `queueEvent` stamps the event's effective frame with the
enqueue-time `mLastQueuedFrame` before linking it at the ring tail; when the
head event is later consumed, `mLastIssuedFrame` advances to exactly that
stamped effective frame and the event leaves the queue state entirely (the
queue owns and deletes the heap object). -/
theorem queueEvent_consume_spec :
    (∀ eid st r st', queueEvent eid st = some (r, st') →
      r = 0 ∧ st'.ring = st.ring ++ [.event eid st.lastQueuedFrame] ∧
      st'.lastIssuedFrame = st.lastIssuedFrame ∧
      st'.queuedWork = st.queuedWork + 1) ∧
    (∀ e eff rest st b st', st.ring = .event e eff :: rest →
      consumeWork st = some (b, st') →
      b = true ∧ st'.lastIssuedFrame = eff ∧ st'.ring = rest ∧
      st'.consumedWork = st.consumedWork + 1 ∧
      st'.workConsumedSignals = st.workConsumedSignals + 1) := by
  constructor
  · intro eid st r st' h
    unfold queueEvent at h
    cases hqw : doQueueWork (.event eid st.lastQueuedFrame) st with
    | none => rw [hqw] at h; exact absurd h (by simp)
    | some st1 =>
      rw [hqw] at h
      injection h with h
      injection h with h2 h3
      subst h3
      obtain ⟨hr, hi, hq, hw, _⟩ := doQueueWork_fields _ _ _ hqw
      exact ⟨h2.symm, hr, hi, hw⟩
  · intro e eff rest st b st' hring h
    unfold consumeWork at h
    rw [hring] at h
    dsimp only at h
    split at h
    · exact absurd h (by simp)
    · cases hce : doConsumeEvent st with
      | none => rw [hce] at h; exact absurd h (by simp)
      | some st1 =>
        rw [hce] at h
        injection h with h
        injection h with h2 h3
        subst h3
        refine ⟨h2.symm, ?_⟩
        unfold doConsumeEvent at hce
        rw [hring] at hce
        dsimp only at hce
        split at hce
        · exact absurd hce (by simp)
        · split at hce
          · exact absurd hce (by simp)
          · obtain ⟨ha1, ha2, ha3, _, _, _, _, _, _, ha10, _⟩ :=
              doAdvanceIssuedFrame_eq _ _ _ hce
            exact ⟨ha1, by rw [ha3], by rw [ha10], ha2⟩

theorem queueEvent_consume_spec_witness :
    true = true ∧ stEventDone.lastIssuedFrame = ⟨1, 1⟩ ∧ stEventDone.ring = [] ∧
    stEventDone.consumedWork = stEventHead.consumedWork + 1 ∧
    stEventDone.workConsumedSignals = stEventHead.workConsumedSignals + 1 :=
  queueEvent_consume_spec.2 7 ⟨1, 1⟩ [] stEventHead true stEventDone
    (by decide) (by decide)

/-- C7 (evaluation of both failure paths): `queueFrame` returns the single
code `-ENOSYS` (-38) both when `findFree` yields no frame (every pool frame
locked for display) and when the layer allocation inside `Frame::set` fails,
so the two failure kinds are not distinguishable by the caller. -/
theorem queueFrame_error_codes_collide :
    (queueFrame [{}] 0 ⟨1, 1⟩ true stAllLocked).map Prod.fst = some eNoSys ∧
    (queueFrame [{}] 0 ⟨1, 1⟩ false stEmpty2).map Prod.fst = some eNoSys := by
  decide

theorem invalidateLoop_keeps_invalid :
    ∀ (todo : List RingItem) (st : State) (j : Nat),
      (poolGet st j).valid = false →
      (poolGet (invalidateLoop todo st) j).valid = false := by
  intro todo
  induction todo with
  | nil => intro st j h; exact h
  | cons it rest ih =>
    intro st j h
    unfold invalidateLoop
    cases it with
    | event e eff => exact ih st j h
    | frameRef i =>
      dsimp only
      split
      · refine ih _ j ?_
        rw [poolGet_setPool]
        split
        · rfl
        · exact h
      · exact ih st j h

theorem invalidateLoop_invalidates :
    ∀ (todo : List RingItem) (st : State) (i : Nat),
      RingItem.frameRef i ∈ todo →
      (poolGet st i).lockedForDisplay = false →
      (poolGet st i).ftype = .displayQueue →
      (poolGet (invalidateLoop todo st) i).valid = false := by
  intro todo
  induction todo with
  | nil => intro st i hmem; exact absurd hmem (by simp)
  | cons it rest ih =>
    intro st i hmem hlock htype
    unfold invalidateLoop
    cases it with
    | event e eff =>
      refine ih st i ?_ hlock htype
      rcases List.mem_cons.mp hmem with h | h
      · exact absurd h (by simp)
      · exact h
    | frameRef k =>
      dsimp only
      by_cases hik : k = i
      · subst hik
        split
        · rename_i hcond
          have hklen : k < st.pool.length := by
            by_contra hge
            have : poolGet st k = {} := by
              unfold poolGet
              rw [List.getD_eq_getElem?_getD, List.getElem?_eq_none (by omega)]
              rfl
            rw [this] at htype
            exact absurd htype (by decide)
          refine invalidateLoop_keeps_invalid rest _ k ?_
          rw [poolGet_setPool]
          simp only [hklen, and_true, if_true, true_and, if_pos rfl]
          rfl
        · rename_i hcond
          exact absurd ⟨by simp [hlock], htype⟩ hcond
      · have hmem2 : RingItem.frameRef i ∈ rest := by
          rcases List.mem_cons.mp hmem with h | h
          · injection h with h
            exact absurd h.symm hik
          · exact h
        split
        · refine ih _ i hmem2 ?_ ?_
          · rw [poolGet_setPool]
            simp only [hik, false_and, if_false]
            exact hlock
          · rw [poolGet_setPool]
            simp only [hik, false_and, if_false]
            exact htype
        · exact ih st i hmem2 hlock htype

/-- C6: whenever the flush wait cannot run to completion — a worker exists
(in particular when the call is made from the worker thread itself, which
skips the wait) or the consumer is blocked — `flush` yields false and marks
every unlocked display-queue frame linked in the ring invalid; and a true
result is produced only after the backend's `syncFlip` has been called. -/
theorem flush_spec (fi : Nat) (tn : Int) (st : State) :
    ((st.workerStarted = true ∨ st.consumerBlocked = true) →
      (flush fi tn st).1 = false ∧
      (∀ i, RingItem.frameRef i ∈ st.ring →
        (poolGet st i).lockedForDisplay = false →
        (poolGet st i).ftype = .displayQueue →
        (poolGet (flush fi tn st).2 i).valid = false)) ∧
    ((flush fi tn st).1 = true →
      (flush fi tn st).2.syncFlipCalls = st.syncFlipCalls + 1) := by
  constructor
  · intro hor
    have hcond : ¬ (¬ workerTidEqCaller st = true ∧ ¬ st.consumerBlocked = true) := by
      unfold workerTidEqCaller
      rcases hor with h | h
      · intro hc
        exact hc.1 h
      · intro hc
        exact hc.2 h
    have hfl : flush fi tn st = (false, doInvalidateFrames st) := by
      unfold flush
      rw [if_neg hcond]
    rw [hfl]
    refine ⟨rfl, ?_⟩
    intro i hmem hlock htype
    exact invalidateLoop_invalidates st.ring st i hmem hlock htype
  · by_cases hw : workerTidEqCaller st = true
    · have hfl : flush fi tn st = (false, doInvalidateFrames st) := by
        unfold flush
        rw [if_neg]
        intro hc
        exact hc.1 hw
      rw [hfl]
      intro htrue
      exact absurd htrue (by simp)
    · by_cases hb : st.consumerBlocked = true
      · have hfl : flush fi tn st = (false, doInvalidateFrames st) := by
          unfold flush
          rw [if_neg]
          intro hc
          exact hc.2 hb
        rw [hfl]
        intro htrue
        exact absurd htrue (by simp)
      · have hdf : doFlush st = (true, { st with syncFlipCalls := st.syncFlipCalls + 1 }) := by
          unfold doFlush
          rw [if_neg hb]
        have hfl : flush fi tn st = (true, { st with syncFlipCalls := st.syncFlipCalls + 1 }) := by
          unfold flush
          rw [if_pos ⟨hw, hb⟩, hdf]
        rw [hfl]
        intro _
        rfl

theorem flush_spec_witness :
    (flush 0 0 { stTwoQueued with workerStarted := true }).1 = false ∧
    (poolGet (flush 0 0 { stTwoQueued with workerStarted := true }).2 0).valid = false := by
  have h := (flush_spec 0 0 { stTwoQueued with workerStarted := true }).1 (Or.inl rfl)
  exact ⟨h.1, h.2 0 (by decide) (by decide) (by decide)⟩

theorem validate_of_eq {a b : FrameId} (h : b = a) :
    a.validateFutureFrame b = true := by
  rw [h]
  exact validateFutureFrame_refl a

theorem setEffOfTail_scalars (id : FrameId) (st : State) :
    (setEffOfTail id st).lastIssuedFrame = st.lastIssuedFrame ∧
    (setEffOfTail id st).framePoolUsed = st.framePoolUsed ∧
    (setEffOfTail id st).framesLockedForDisplay = st.framesLockedForDisplay := by
  unfold setEffOfTail
  split
  · exact ⟨rfl, rfl, rfl⟩
  · exact ⟨rfl, rfl, rfl⟩
  · exact ⟨rfl, rfl, rfl⟩

theorem dropAllLoop_core : ∀ (todo : List RingItem) (st st' : State),
    dropAllLoop todo st = some st' → coreFieldsEq st' st := by
  intro todo
  induction todo with
  | nil =>
    intro st st' h
    unfold dropAllLoop at h
    injection h with h
    exact h ▸ coreFieldsEq_refl st
  | cons it rest ih =>
    intro st st' h
    unfold dropAllLoop at h
    cases it with
    | event e eff => exact ih _ _ h
    | frameRef i =>
      dsimp only at h
      split at h
      · cases hdrop : dropFrame i st with
        | none => rw [hdrop] at h; exact absurd h (by simp)
        | some st1 =>
          rw [hdrop] at h
          exact coreFieldsEq_trans (ih _ _ h) (dropFrame_core i st st1 hdrop)
      · exact ih _ _ h

theorem invalidateLoop_scalars : ∀ (todo : List RingItem) (st : State),
    (invalidateLoop todo st).lastIssuedFrame = st.lastIssuedFrame ∧
    (invalidateLoop todo st).lastQueuedFrame = st.lastQueuedFrame ∧
    (invalidateLoop todo st).ring = st.ring ∧
    (invalidateLoop todo st).framePoolUsed = st.framePoolUsed ∧
    (invalidateLoop todo st).framesLockedForDisplay = st.framesLockedForDisplay ∧
    (invalidateLoop todo st).queuedWork = st.queuedWork ∧
    (invalidateLoop todo st).queuedFrames = st.queuedFrames := by
  intro todo
  induction todo with
  | nil => intro st; exact ⟨rfl, rfl, rfl, rfl, rfl, rfl, rfl⟩
  | cons it rest ih =>
    intro st
    unfold invalidateLoop
    cases it with
    | event e eff => exact ih st
    | frameRef i =>
      dsimp only
      split
      · exact ih _
      · exact ih st

theorem releaseFrame_fields (i : Nat) (st st' : State)
    (h : releaseFrame i st = some st') :
    st'.lastIssuedFrame = st.lastIssuedFrame ∧
    st'.lastQueuedFrame = st.lastQueuedFrame ∧
    st'.ring = st.ring ∧
    st'.framePoolUsed = st.framePoolUsed - 1 ∧
    st'.framesLockedForDisplay = st.framesLockedForDisplay - 1 ∧
    st'.queuedWork = st.queuedWork ∧
    st'.queuedFrames = st.queuedFrames ∧
    st'.pool = st.pool.set i ((poolGet st i).reset false) ∧
    (poolGet st i).lockedForDisplay = true ∧
    (poolGet st i).ftype = .displayQueue ∧
    st.framesLockedForDisplay ≠ 0 ∧ st.framePoolUsed ≠ 0 := by
  unfold releaseFrame at h
  dsimp only at h
  split_ifs at h
  any_goals simp at h
  subst h
  refine ⟨rfl, rfl, rfl, rfl, rfl, rfl, rfl, rfl, by assumption, by assumption, ?_, ?_⟩
  · rename_i hg
    intro h0
    exact hg (Or.inl h0)
  · rename_i hg
    intro h0
    exact hg (Or.inr h0)

theorem consumeFrameFlip_mono (st st' : State)
    (h : consumeFrameFlip st = some st') :
    st.lastIssuedFrame.validateFutureFrame st'.lastIssuedFrame = true := by
  unfold consumeFrameFlip at h
  split at h
  · dsimp only at h
    split at h
    · exact absurd h (by simp)
    · split at h
      · exact absurd h (by simp)
      · obtain ⟨ha1, _⟩ := doAdvanceIssuedFrame_eq _ _ _ h
        have hval := (doAdvanceIssuedFrame_eq _ _ _ h).2.2.2.2.2.2.2.2.2.2
        rw [ha1]
        exact hval
  · exact absurd h (by simp)

theorem doConsumeEvent_mono (st st' : State)
    (h : doConsumeEvent st = some st') :
    st.lastIssuedFrame.validateFutureFrame st'.lastIssuedFrame = true := by
  unfold doConsumeEvent at h
  split at h
  · split at h
    · exact absurd h (by simp)
    · split at h
      · exact absurd h (by simp)
      · obtain ⟨ha1, _⟩ := doAdvanceIssuedFrame_eq _ _ _ h
        have hval := (doAdvanceIssuedFrame_eq _ _ _ h).2.2.2.2.2.2.2.2.2.2
        rw [ha1]
        exact hval
  · exact absurd h (by simp)

theorem doConsumeFrame_mono (st st' : State)
    (h : doConsumeFrame st = some st') :
    st.lastIssuedFrame.validateFutureFrame st'.lastIssuedFrame = true := by
  cases hr : st.ring with
  | nil =>
    unfold doConsumeFrame at h
    rw [hr] at h
    exact absurd h (by simp)
  | cons hd tl =>
    cases hd with
    | event e eff =>
      unfold doConsumeFrame at h
      rw [hr] at h
      exact absurd h (by simp)
    | frameRef i =>
      unfold doConsumeFrame at h
      rw [hr] at h
      dsimp only at h
      split_ifs at h with hg1 hg2 hg3 hg4 hg5 hg6
      · -- SYNC_BEFORE_FLIP path, head re-check passed
        rename_i hg7
        cases hwalk : doDropRedundantFrames
            (unlockFrameForDisplay i (lockFrameForDisplay i st)) with
        | none => rw [hwalk] at h; exact absurd h (by simp)
        | some st2 =>
          rw [hwalk] at h
          dsimp only at h
          have hw2 := doDropRedundantFrames_core _ _ hwalk
          cases hr2 : st2.ring with
          | nil => rw [hr2] at h; exact absurd h (by simp)
          | cons hd2 tl2 =>
            rw [hr2] at h
            cases hd2 with
            | event e2 eff2 =>
              injection h with h
              subst h
              exact validate_of_eq (hw2.1 :
                st2.lastIssuedFrame = st.lastIssuedFrame)
            | frameRef j =>
              dsimp only at h
              split at h
              · exact absurd h (by simp)
              · have hmono := consumeFrameFlip_mono (lockFrameForDisplay j st2) st' h
                have heq : (lockFrameForDisplay j st2).lastIssuedFrame
                    = st.lastIssuedFrame := hw2.1
                rw [heq] at hmono
                exact hmono
      · -- non-sync path
        exact consumeFrameFlip_mono (lockFrameForDisplay i st) st' h

/-- C2: no public operation — enqueues, drops (coalesced or not), event and
frame consumption, release, flush, blocking — ever moves `mLastIssuedFrame`
to a smaller FrameId in the signed 32-bit subtraction order: along any
sequence of completed operations the issued frame is non-decreasing step by
step. -/
theorem lastIssued_monotone (op : Op) (st st' : State)
    (h : applyOp op st = some st') :
    st.lastIssuedFrame.validateFutureFrame st'.lastIssuedFrame = true := by
  cases op with
  | opQueueEvent eid =>
    simp only [applyOp] at h
    cases hq : queueEvent eid st with
    | none => rw [hq] at h; exact absurd h (by simp)
    | some pr =>
      rw [hq] at h
      injection h with h
      subst h
      unfold queueEvent at hq
      cases hqw : doQueueWork (.event eid st.lastQueuedFrame) st with
      | none => rw [hqw] at hq; exact absurd hq (by simp)
      | some st1 =>
        rw [hqw] at hq
        injection hq with hq
        subst hq
        exact validate_of_eq (doQueueWork_fields _ _ _ hqw).2.1
  | opQueueFrame stack z id ok =>
    simp only [applyOp] at h
    cases hq : queueFrame stack z id ok st with
    | none => rw [hq] at h; exact absurd h (by simp)
    | some pr =>
      rw [hq] at h
      injection h with h
      subst h
      exact validate_of_eq (queueFrame_tracking stack z id ok st pr.1 pr.2 (by rw [hq])).1
  | opQueueDrop id =>
    simp only [applyOp] at h
    unfold queueDrop at h
    split at h
    · exact absurd h (by simp)
    · split at h
      · cases hadv : doAdvanceIssuedFrame id st with
        | none => rw [hadv] at h; exact absurd h (by simp)
        | some st1 =>
          rw [hadv] at h
          injection h with h
          subst h
          obtain ⟨ha1, _⟩ := doAdvanceIssuedFrame_eq _ _ _ hadv
          have hval := (doAdvanceIssuedFrame_eq _ _ _ hadv).2.2.2.2.2.2.2.2.2.2
          show st.lastIssuedFrame.validateFutureFrame st1.lastIssuedFrame = true
          rw [ha1]
          exact hval
      · injection h with h
        subst h
        exact validate_of_eq (setEffOfTail_scalars id st).1
  | opDropAllFrames =>
    simp only [applyOp] at h
    unfold dropAllFrames at h
    exact validate_of_eq (dropAllLoop_core _ _ _ h).1
  | opDropRedundantFrames =>
    simp only [applyOp] at h
    unfold dropRedundantFrames at h
    exact validate_of_eq (doDropRedundantFrames_core _ _ h).1
  | opConsumeWork =>
    simp only [applyOp] at h
    cases hc : consumeWork st with
    | none => rw [hc] at h; exact absurd h (by simp)
    | some pr =>
      rw [hc] at h
      injection h with h
      subst h
      unfold consumeWork at hc
      split at hc
      · split at hc
        · injection hc with hc
          exact validate_of_eq (by rw [← hc])
        · exact absurd hc (by simp)
      · split at hc
        · exact absurd hc (by simp)
        · cases hdf : doConsumeFrame st with
          | none => rw [hdf] at hc; exact absurd hc (by simp)
          | some st1 =>
            rw [hdf] at hc
            injection hc with hc
            have h2 : pr.2 = st1 := by rw [← hc]
            rw [h2]
            exact doConsumeFrame_mono st st1 hdf
      · split at hc
        · exact absurd hc (by simp)
        · cases hde : doConsumeEvent st with
          | none => rw [hde] at hc; exact absurd hc (by simp)
          | some st1 =>
            rw [hde] at hc
            injection hc with hc
            have h2 : pr.2 = st1 := by rw [← hc]
            rw [h2]
            exact doConsumeEvent_mono st st1 hde
  | opReleaseFrame i =>
    simp only [applyOp] at h
    exact validate_of_eq (releaseFrame_fields i st st' h).1
  | opFlush fi tn =>
    simp only [applyOp] at h
    injection h with h
    subst h
    by_cases hw : workerTidEqCaller st = true
    · have hfl : flush fi tn st = (false, doInvalidateFrames st) := by
        unfold flush
        rw [if_neg]
        intro hc
        exact hc.1 hw
      rw [hfl]
      exact validate_of_eq (invalidateLoop_scalars _ _).1
    · by_cases hb : st.consumerBlocked = true
      · have hfl : flush fi tn st = (false, doInvalidateFrames st) := by
          unfold flush
          rw [if_neg]
          intro hc
          exact hc.2 hb
        rw [hfl]
        exact validate_of_eq (invalidateLoop_scalars _ _).1
      · have hdf : doFlush st = (true, { st with syncFlipCalls := st.syncFlipCalls + 1 }) := by
          unfold doFlush
          rw [if_neg hb]
        have hfl : flush fi tn st = (true, { st with syncFlipCalls := st.syncFlipCalls + 1 }) := by
          unfold flush
          rw [if_pos ⟨hw, hb⟩, hdf]
        rw [hfl]
        exact validateFutureFrame_refl _
  | opConsumerBlocked =>
    simp only [applyOp] at h
    injection h with h
    subst h
    exact validateFutureFrame_refl _
  | opConsumerUnblocked =>
    simp only [applyOp] at h
    unfold consumerUnblockedOp at h
    split at h
    · exact absurd h (by simp)
    · injection h with h
      subst h
      exact validateFutureFrame_refl _
  | opInit =>
    simp only [applyOp] at h
    injection h with h
    subst h
    exact validateFutureFrame_refl _

theorem lastIssued_monotone_witness :
    stEmpty2.lastIssuedFrame.validateFutureFrame stEmpty2Dropped.lastIssuedFrame = true :=
  lastIssued_monotone (.opQueueDrop ⟨3, 3⟩) stEmpty2 stEmpty2Dropped (by decide)

theorem countDQ_congr (p q : List Frame) (r : List RingItem)
    (h : ∀ i, (p.getD i {}).ftype = (q.getD i {}).ftype) :
    countDQ p r = countDQ q r := by
  unfold countDQ
  induction r with
  | nil => rfl
  | cons it rest ih =>
    rw [List.countP_cons, List.countP_cons, ih]
    congr 1
    cases it with
    | frameRef i =>
      dsimp only
      rw [h i]
    | event e eff => rfl

theorem countDQ_set (p : List Frame) (i : Nat) (f : Frame) (r : List RingItem)
    (hf : f.ftype = (p.getD i {}).ftype) :
    countDQ (p.set i f) r = countDQ p r := by
  refine countDQ_congr _ _ r ?_
  intro j
  rw [List.getD_eq_getElem?_getD (p.set i f), List.getElem?_set]
  by_cases hij : i = j
  · subst hij
    by_cases hlen : i < p.length
    · simp only [if_pos, hlen, and_self, if_true, true_and, Option.getD_some]
      rw [hf]
    · simp only [hlen, if_false, true_and, if_true]
      rw [List.getD_eq_getElem?_getD p i, List.getElem?_eq_none (by omega : p.length ≤ i)]
  · simp only [hij, if_false, false_and]
    rw [List.getD_eq_getElem?_getD]

theorem countDQ_erase (p : List Frame) (r : List RingItem) (i : Nat)
    (hmem : RingItem.frameRef i ∈ r)
    (hdq : (p.getD i {}).ftype = .displayQueue) :
    countDQ p (ringErase r (.frameRef i)) + 1 = countDQ p r := by
  induction r with
  | nil => exact absurd hmem (by simp)
  | cons a rest ih =>
    unfold ringErase
    by_cases ha : a = RingItem.frameRef i
    · rw [if_pos ha]
      unfold countDQ
      rw [List.countP_cons, ha]
      dsimp only
      rw [hdq]
      simp
    · rw [if_neg ha]
      have hmem2 : RingItem.frameRef i ∈ rest := by
        rcases List.mem_cons.mp hmem with h | h
        · exact absurd h.symm ha
        · exact h
      have ih2 := ih hmem2
      unfold countDQ at ih2 ⊢
      rw [List.countP_cons, List.countP_cons]
      omega

theorem countDQ_event_append (p : List Frame) (r : List RingItem)
    (e : Nat) (eff : FrameId) :
    countDQ p (r ++ [.event e eff]) = countDQ p r := by
  unfold countDQ
  rw [List.countP_append]
  simp

theorem countDQ_frame_append (p : List Frame) (r : List RingItem) (i : Nat)
    (hdq : (p.getD i {}).ftype = .displayQueue) :
    countDQ p (r ++ [.frameRef i]) = countDQ p r + 1 := by
  unfold countDQ
  rw [List.countP_append, List.countP_cons]
  dsimp only
  rw [hdq]
  simp

theorem Frame.reset_ftype (f : Frame) (b : Bool) : (f.reset b).ftype = f.ftype := rfl

theorem Frame.set_ftype (f : Frame) (stack : List Layer) (z : Nat) (id : FrameId)
    (ok : Bool) : (f.set stack z id ok).2.ftype = f.ftype := by
  unfold Frame.set
  dsimp only
  split_ifs
  all_goals rfl

theorem Frame.set_fail_implies (f : Frame) (stack : List Layer) (z : Nat)
    (id : FrameId) (ok : Bool) (h : (f.set stack z id ok).1 = false) :
    ok = false ∧ f.layerAllocCount < stack.length := by
  unfold Frame.set at h
  dsimp only at h
  split_ifs at h with h1 h2
  · exact ⟨by simpa using h1.2, h1.1⟩
  · rename_i h3
    exact absurd h3 (Nat.not_lt.mpr (le_max_left _ _))

theorem Frame.set_ok (f : Frame) (stack : List Layer) (z : Nat) (id : FrameId) :
    (f.set stack z id true).1 = true := by
  cases hres : (f.set stack z id true).1
  · have := Frame.set_fail_implies f stack z id true hres
    simp at this
  · rfl

theorem countDQ_event_cons (p : List Frame) (e : Nat) (eff : FrameId)
    (r : List RingItem) : countDQ p (.event e eff :: r) = countDQ p r := by
  unfold countDQ
  rw [List.countP_cons]
  simp

theorem countDQ_frame_cons (p : List Frame) (i : Nat) (r : List RingItem)
    (hdq : (p.getD i {}).ftype = .displayQueue) :
    countDQ p (.frameRef i :: r) = countDQ p r + 1 := by
  unfold countDQ
  rw [List.countP_cons]
  dsimp only
  rw [hdq]
  simp

theorem countDQ_pool_setPool (st : State) (i : Nat) (f : Frame) (r : List RingItem)
    (hf : f.ftype = (poolGet st i).ftype) :
    countDQ (setPool st i f).pool r = countDQ st.pool r := by
  show countDQ (st.pool.set i f) r = countDQ st.pool r
  exact countDQ_set st.pool i f r hf

theorem dropFrame_poolInv (i : Nat) (st st' : State)
    (h : dropFrame i st = some st') (hinv : poolInv st) : poolInv st' := by
  unfold dropFrame at h
  dsimp only at h
  split_ifs at h with h1 h2 h3 h4 h5
  any_goals simp at h
  subst h
  have hmem : RingItem.frameRef i ∈ st.ring := by
    unfold State.isQueuedIdx at h3
    exact of_decide_eq_true h3
  have hdq : (st.pool.getD i {}).ftype = .displayQueue := h2
  have herase := countDQ_erase st.pool st.ring i hmem hdq
  unfold poolInv at hinv ⊢
  dsimp only
  rw [countDQ_set st.pool i ((poolGet st i).reset true) _ rfl]
  omega

theorem redundantWalk_poolInv : ∀ (todo : List RingItem) (b : Bool) (st st' : State),
    redundantWalk todo b st = some st' → poolInv st → poolInv st' := by
  intro todo
  induction todo with
  | nil =>
    intro b st st' h hinv
    unfold redundantWalk at h
    injection h with h
    exact h ▸ hinv
  | cons it rest ih =>
    intro b st st' h hinv
    unfold redundantWalk at h
    cases it with
    | event e eff => exact ih _ _ _ h hinv
    | frameRef i =>
      dsimp only at h
      split at h
      · split at h
        · exact ih _ _ _ h hinv
        · cases hdrop : dropFrame i st with
          | none => rw [hdrop] at h; exact absurd h (by simp)
          | some st1 =>
            rw [hdrop] at h
            exact ih _ _ _ h (dropFrame_poolInv i st st1 hdrop hinv)
      · exact ih _ _ _ h hinv

theorem doDropRedundantFrames_poolInv (st st' : State)
    (h : doDropRedundantFrames st = some st') (hinv : poolInv st) : poolInv st' := by
  unfold doDropRedundantFrames at h
  split at h
  · injection h with h; exact h ▸ hinv
  · injection h with h; exact h ▸ hinv
  · exact redundantWalk_poolInv _ _ _ _ h hinv

theorem dropAllLoop_poolInv : ∀ (todo : List RingItem) (st st' : State),
    dropAllLoop todo st = some st' → poolInv st → poolInv st' := by
  intro todo
  induction todo with
  | nil =>
    intro st st' h hinv
    unfold dropAllLoop at h
    injection h with h
    exact h ▸ hinv
  | cons it rest ih =>
    intro st st' h hinv
    unfold dropAllLoop at h
    cases it with
    | event e eff => exact ih _ _ h hinv
    | frameRef i =>
      dsimp only at h
      split at h
      · cases hdrop : dropFrame i st with
        | none => rw [hdrop] at h; exact absurd h (by simp)
        | some st1 =>
          rw [hdrop] at h
          exact ih _ _ h (dropFrame_poolInv i st st1 hdrop hinv)
      · exact ih _ _ h hinv

theorem findFree_poolInv (st : State) (o : Option Nat) (st' : State)
    (h : findFree st = some (o, st')) (hinv : poolInv st) : poolInv st' := by
  unfold findFree at h
  split at h
  · injection h with h; cases h; exact hinv
  · injection h with h; cases h; exact hinv
  · rename_i i heq
    cases hdrop : dropFrame i st with
    | none => rw [hdrop] at h; exact absurd h (by simp)
    | some st1 =>
      rw [hdrop] at h
      injection h with h
      cases h
      exact dropFrame_poolInv i st _ hdrop hinv

theorem consumeFrameFlip_acct (st st' : State) (h : consumeFrameFlip st = some st') :
    ∃ i rest, st.ring = RingItem.frameRef i :: rest ∧ st'.ring = rest ∧
      st'.pool = st.pool ∧ st'.framePoolUsed = st.framePoolUsed ∧
      st'.framesLockedForDisplay = st.framesLockedForDisplay := by
  cases hr : st.ring with
  | nil =>
    unfold consumeFrameFlip at h
    rw [hr] at h
    exact absurd h (by simp)
  | cons hd rest =>
    cases hd with
    | event e eff =>
      unfold consumeFrameFlip at h
      rw [hr] at h
      exact absurd h (by simp)
    | frameRef i =>
      unfold consumeFrameFlip at h
      rw [hr] at h
      dsimp only at h
      split_ifs at h with h1 h2
      obtain ⟨_, _, ha3, _, _, _, ha7, ha8, ha9, _⟩ := doAdvanceIssuedFrame_eq _ _ _ h
      exact ⟨i, rest, rfl, ha3, ha9, ha7, ha8⟩

theorem lockUnlock_poolInv (i : Nat) (st : State) (hinv : poolInv st) :
    poolInv (unlockFrameForDisplay i (lockFrameForDisplay i st)) := by
  have h1 : (unlockFrameForDisplay i (lockFrameForDisplay i st)).framePoolUsed
      = st.framePoolUsed := rfl
  have h2 : (unlockFrameForDisplay i (lockFrameForDisplay i st)).ring = st.ring := rfl
  have h3 : (unlockFrameForDisplay i (lockFrameForDisplay i st)).framesLockedForDisplay
      = st.framesLockedForDisplay := by
    show st.framesLockedForDisplay + 1 - 1 = st.framesLockedForDisplay
    omega
  have h4 : countDQ (unlockFrameForDisplay i (lockFrameForDisplay i st)).pool st.ring
      = countDQ st.pool st.ring := by
    have e1 : (unlockFrameForDisplay i (lockFrameForDisplay i st)).pool
        = (setPool (lockFrameForDisplay i st) i
            { poolGet (lockFrameForDisplay i st) i with lockedForDisplay := false }).pool := rfl
    have e2 : (lockFrameForDisplay i st).pool
        = (setPool st i { poolGet st i with lockedForDisplay := true }).pool := rfl
    rw [e1, countDQ_pool_setPool, e2, countDQ_pool_setPool]
    all_goals rfl
  unfold poolInv
  rw [h1, h2, h3, h4]
  exact hinv

theorem doConsumeEvent_poolInv (st st' : State) (h : doConsumeEvent st = some st')
    (hinv : poolInv st) : poolInv st' := by
  cases hr : st.ring with
  | nil =>
    unfold doConsumeEvent at h
    rw [hr] at h
    exact absurd h (by simp)
  | cons hd rest =>
    cases hd with
    | frameRef i =>
      unfold doConsumeEvent at h
      rw [hr] at h
      exact absurd h (by simp)
    | event e eff =>
      unfold doConsumeEvent at h
      rw [hr] at h
      dsimp only at h
      split_ifs at h with h1 h2
      obtain ⟨_, _, ha3, _, _, _, ha7, ha8, ha9, _⟩ := doAdvanceIssuedFrame_eq _ _ _ h
      unfold poolInv at hinv ⊢
      rw [hr, countDQ_event_cons] at hinv
      rw [ha3, ha9, ha7, ha8]
      exact hinv

theorem flipLocked_poolInv (j : Nat) (st2 st' : State)
    (h : consumeFrameFlip (lockFrameForDisplay j st2) = some st')
    (hdq : (st2.pool.getD j {}).ftype = .displayQueue)
    (hhead : st2.ring.head? = some (.frameRef j))
    (hinv : poolInv st2) : poolInv st' := by
  obtain ⟨i, rest, hringL, hring, hpool, hused, hlocked⟩ := consumeFrameFlip_acct _ _ h
  have hringL2 : st2.ring = RingItem.frameRef i :: rest := hringL
  have hij : j = i := by
    rw [hringL2] at hhead
    injection hhead with hh
    injection hh with hh
    exact hh.symm
  subst hij
  have hu2 : st'.framePoolUsed = st2.framePoolUsed := hused
  have hl2 : st'.framesLockedForDisplay = st2.framesLockedForDisplay + 1 := hlocked
  have h4 : countDQ st'.pool rest = countDQ st2.pool rest := by
    rw [hpool]
    have e2 : (lockFrameForDisplay j st2).pool
        = (setPool st2 j { poolGet st2 j with lockedForDisplay := true }).pool := rfl
    rw [e2, countDQ_pool_setPool]
    rfl
  unfold poolInv at hinv ⊢
  rw [hringL2, countDQ_frame_cons _ _ _ hdq] at hinv
  rw [hring, hu2, hl2, h4]
  omega

theorem doConsumeFrame_poolInv (st st' : State) (h : doConsumeFrame st = some st')
    (hinv : poolInv st) : poolInv st' := by
  cases hr : st.ring with
  | nil =>
    unfold doConsumeFrame at h
    rw [hr] at h
    exact absurd h (by simp)
  | cons hd tl =>
    cases hd with
    | event e eff =>
      unfold doConsumeFrame at h
      rw [hr] at h
      exact absurd h (by simp)
    | frameRef i =>
      unfold doConsumeFrame at h
      rw [hr] at h
      dsimp only at h
      split_ifs at h with hg1 hg2 hg3 hg4 hg5 hg6
      · -- SYNC_BEFORE_FLIP path
        rename_i hg7
        cases hwalk : doDropRedundantFrames
            (unlockFrameForDisplay i (lockFrameForDisplay i st)) with
        | none => rw [hwalk] at h; exact absurd h (by simp)
        | some st2 =>
          rw [hwalk] at h
          dsimp only at h
          have hinv2 : poolInv st2 :=
            doDropRedundantFrames_poolInv _ _ hwalk (lockUnlock_poolInv i st hinv)
          cases hr2 : st2.ring with
          | nil => rw [hr2] at h; exact absurd h (by simp)
          | cons hd2 tl2 =>
            rw [hr2] at h
            cases hd2 with
            | event e2 eff2 =>
              injection h with h
              subst h
              exact hinv2
            | frameRef j =>
              dsimp only at h
              split at h
              · exact absurd h (by simp)
              · rename_i hty
                have hdq2 : (st2.pool.getD j {}).ftype = .displayQueue := by
                  rw [not_not] at hty
                  have hp := poolGet_setPool st2 j j { poolGet st2 j with lockedForDisplay := true }
                  by_cases hc : j = j ∧ j < st2.pool.length
                  · rw [if_pos hc] at hp
                    have : (poolGet (lockFrameForDisplay j st2) j).ftype = (poolGet st2 j).ftype := by
                      show (poolGet (setPool st2 j _) j).ftype = _
                      rw [hp]
                    rw [this] at hty
                    exact hty
                  · rw [if_neg hc] at hp
                    have : (poolGet (lockFrameForDisplay j st2) j).ftype = (poolGet st2 j).ftype := by
                      show (poolGet (setPool st2 j _) j).ftype = _
                      rw [hp]
                    rw [this] at hty
                    exact hty
                exact flipLocked_poolInv j st2 st' h hdq2 (by rw [hr2]; rfl) hinv2
      · -- non-sync path
        have hdq : (st.pool.getD i {}).ftype = .displayQueue := hg3
        refine flipLocked_poolInv i st st' h hdq (by rw [hr]; rfl) hinv

theorem invalidateLoop_ftype : ∀ (todo : List RingItem) (st : State) (j : Nat),
    (poolGet (invalidateLoop todo st) j).ftype = (poolGet st j).ftype := by
  intro todo
  induction todo with
  | nil => intro st j; rfl
  | cons it rest ih =>
    intro st j
    unfold invalidateLoop
    cases it with
    | event e eff => exact ih st j
    | frameRef i =>
      dsimp only
      split
      · rw [ih _ j]
        have hp := poolGet_setPool st i j (poolGet st i).invalidate
        rw [hp]
        split
        · rename_i hc
          rw [← hc.1]
          rfl
        · rfl
      · exact ih st j

theorem doInvalidateFrames_poolInv (st : State) (hinv : poolInv st) :
    poolInv (doInvalidateFrames st) := by
  unfold poolInv at hinv ⊢
  obtain ⟨_, _, hring, hused, hlocked, _, _⟩ := invalidateLoop_scalars st.ring st
  unfold doInvalidateFrames
  rw [hring, hused, hlocked]
  have hcnt : countDQ (invalidateLoop st.ring st).pool st.ring = countDQ st.pool st.ring := by
    refine countDQ_congr _ _ _ ?_
    intro j
    exact invalidateLoop_ftype st.ring st j
  rw [hcnt]
  exact hinv

theorem queueDrop_poolInv (id : FrameId) (st st' : State)
    (h : queueDrop id st = some st') (hinv : poolInv st) : poolInv st' := by
  unfold queueDrop at h
  split at h
  · exact absurd h (by simp)
  · split at h
    · cases hadv : doAdvanceIssuedFrame id st with
      | none => rw [hadv] at h; exact absurd h (by simp)
      | some st1 =>
        rw [hadv] at h
        injection h with h
        subst h
        obtain ⟨_, _, ha3, _, _, _, ha7, ha8, ha9, _⟩ := doAdvanceIssuedFrame_eq _ _ _ hadv
        unfold poolInv at hinv ⊢
        dsimp only
        rw [ha3, ha7, ha8, ha9]
        exact hinv
    · rename_i tl0 hlast
      injection h with h
      subst h
      unfold poolInv at hinv ⊢
      dsimp only
      cases tl0 with
      | frameRef i =>
        have hset : setEffOfTail id st =
            setPool st i { poolGet st i with effectiveFrame := id } := by
          unfold setEffOfTail
          rw [hlast]
        rw [hset]
        show st.framePoolUsed
            = countDQ (setPool st i { poolGet st i with effectiveFrame := id }).pool st.ring
              + st.framesLockedForDisplay
        rw [countDQ_pool_setPool]
        · exact hinv
        · rfl
      | event e eff =>
        have hset : setEffOfTail id st =
            { st with ring := st.ring.dropLast ++ [.event e id] } := by
          unfold setEffOfTail
          rw [hlast]
        rw [hset]
        show st.framePoolUsed = countDQ st.pool (st.ring.dropLast ++ [.event e id]) + st.framesLockedForDisplay
        rw [countDQ_event_append]
        have hdecomp : st.ring.dropLast ++ [RingItem.event e eff] = st.ring :=
          List.dropLast_append_getLast? _ hlast
        rw [← hdecomp, countDQ_event_append] at hinv
        exact hinv

theorem releaseFrame_poolInv (i : Nat) (st st' : State)
    (h : releaseFrame i st = some st') (hinv : poolInv st) : poolInv st' := by
  obtain ⟨_, _, hring, hused, hlocked, _, _, hpool, _, _, hl0, hu0⟩ :=
    releaseFrame_fields i st st' h
  unfold poolInv at hinv ⊢
  rw [hring, hused, hlocked, hpool,
    countDQ_set st.pool i ((poolGet st i).reset false) st.ring rfl]
  omega

theorem queueEvent_poolInv (eid : Nat) (st : State) (r : Int) (st' : State)
    (h : queueEvent eid st = some (r, st')) (hinv : poolInv st) : poolInv st' := by
  unfold queueEvent at h
  cases hqw : doQueueWork (.event eid st.lastQueuedFrame) st with
  | none => rw [hqw] at h; exact absurd h (by simp)
  | some st1 =>
    rw [hqw] at h
    injection h with h
    injection h with h2 h3
    subst h3
    obtain ⟨hring, _, _, _, hlocked, hused, hpool⟩ := doQueueWork_fields _ _ _ hqw
    unfold poolInv at hinv ⊢
    rw [hring, hlocked, hused, hpool, countDQ_event_append]
    exact hinv

theorem findFreeScan_inl (st : State) : ∀ (l : List (Nat × Frame))
    (old : Option (Nat × Frame)) (i : Nat),
    findFreeScan st l old = .inl i →
    ∃ f, (i, f) ∈ l ∧ f.lockedForDisplay = false ∧ st.isQueuedIdx i = false := by
  intro l
  induction l with
  | nil =>
    intro old i h
    unfold findFreeScan at h
    exact absurd h (by simp)
  | cons p rest ih =>
    intro old i h
    obtain ⟨j, g⟩ := p
    unfold findFreeScan at h
    by_cases hl : g.lockedForDisplay = true
    · rw [if_pos hl] at h
      rcases ih _ _ h with ⟨f, hmem, hf⟩
      exact ⟨f, List.mem_cons_of_mem _ hmem, hf⟩
    · rw [if_neg hl] at h
      by_cases hq : st.isQueuedIdx j = true
      · rw [if_neg (not_not_intro hq)] at h
        rcases ih _ _ h with ⟨f, hmem, hf⟩
        exact ⟨f, List.mem_cons_of_mem _ hmem, hf⟩
      · rw [if_pos hq] at h
        injection h with h
        subst h
        exact ⟨g, List.mem_cons_self _ _, by simpa using hl, by simpa using hq⟩

theorem findFreeScan_inr_mem (st : State) : ∀ (l : List (Nat × Frame))
    (old : Option (Nat × Frame)) (i : Nat),
    findFreeScan st l old = .inr (some i) →
    (∃ f, (i, f) ∈ l ∧ f.lockedForDisplay = false ∧ st.isQueuedIdx i = true) ∨
    (∃ f, old = some (i, f)) := by
  intro l
  induction l with
  | nil =>
    intro old i h
    unfold findFreeScan at h
    injection h with h
    cases old with
    | none => exact absurd h (by simp)
    | some p =>
      right
      refine ⟨p.2, ?_⟩
      simp at h
      rw [← h]
  | cons p rest ih =>
    intro old i h
    obtain ⟨j, g⟩ := p
    unfold findFreeScan at h
    by_cases hl : g.lockedForDisplay = true
    · rw [if_pos hl] at h
      rcases ih _ _ h with ⟨f, hmem, hf⟩ | hold
      · exact Or.inl ⟨f, List.mem_cons_of_mem _ hmem, hf⟩
      · exact Or.inr hold
    · rw [if_neg hl] at h
      by_cases hq : st.isQueuedIdx j = true
      · rw [if_neg (not_not_intro hq)] at h
        rcases ih _ _ h with ⟨f, hmem, hf⟩ | hold
        · exact Or.inl ⟨f, List.mem_cons_of_mem _ hmem, hf⟩
        · obtain ⟨f, hold⟩ := hold
          by_cases htn : scanOlder old g = true
          · rw [if_pos htn] at hold
            injection hold with hold
            injection hold with hij hf2
            subst hij
            exact Or.inl ⟨g, List.mem_cons_self _ _, by simpa using hl, hq⟩
          · rw [if_neg htn] at hold
            exact Or.inr ⟨f, hold⟩
      · rw [if_pos hq] at h
        exact absurd h (by simp)

theorem mem_enum_lt (p : List Frame) (i : Nat) (f : Frame)
    (h : (i, f) ∈ p.enum) : i < p.length ∧ p.getD i {} = f := by
  have h2 := List.mem_enum_iff_getElem?.mp h
  constructor
  · by_contra hge
    rw [List.getElem?_eq_none (by omega)] at h2
    exact absurd h2 (by simp)
  · rw [List.getD_eq_getElem?_getD, h2]
    rfl

theorem findFree_found (st : State) (i : Nat) (st' : State)
    (h : findFree st = some (some i, st')) :
    i < st.pool.length ∧ (poolGet st i).lockedForDisplay = false := by
  unfold findFree at h
  split at h
  · rename_i i0 heq
    injection h with h
    injection h with h2 h3
    injection h2 with h2
    subst h2
    obtain ⟨f, hmem, hfl, _⟩ := findFreeScan_inl st _ _ _ heq
    obtain ⟨hlt, hgd⟩ := mem_enum_lt _ _ _ hmem
    refine ⟨hlt, ?_⟩
    unfold poolGet
    rw [hgd]
    exact hfl
  · injection h with h
    injection h with h2 h3
    exact absurd h2 (by simp)
  · rename_i i0 heq
    cases hdrop : dropFrame i0 st with
    | none => rw [hdrop] at h; exact absurd h (by simp)
    | some st1 =>
      rw [hdrop] at h
      injection h with h
      injection h with h2 h3
      injection h2 with h2
      subst h2
      rcases findFreeScan_inr_mem st _ _ _ heq with ⟨f, hmem, hfl, _⟩ | ⟨f, hold⟩
      · obtain ⟨hlt, hgd⟩ := mem_enum_lt _ _ _ hmem
        refine ⟨hlt, ?_⟩
        unfold poolGet
        rw [hgd]
        exact hfl
      · exact absurd hold (by simp)

theorem queueFrame_poolInv (stack : List Layer) (z : Nat) (id : FrameId)
    (ok : Bool) (st : State) (r : Int) (st' : State) (hinv : poolInv st)
    (h : queueFrame stack z id ok st = some (r, st')) :
    poolInv st' ∨ (r = eNoSys ∧ ok = false ∧
      st'.framePoolUsed = countDQ st'.pool st'.ring + st'.framesLockedForDisplay + 1) := by
  unfold queueFrame at h
  split at h
  · exact absurd h (by simp)
  · split at h
    · exact absurd h (by simp)
    · rename_i st1 hlim
      have hinv1 : poolInv st1 := doDropRedundantFrames_poolInv st st1 hlim hinv
      split at h
      · exact absurd h (by simp)
      · rename_i st2 hff
        injection h with h
        injection h with h2 h3
        subst h3
        exact Or.inl (findFree_poolInv st1 none st2 hff hinv1)
      · rename_i i st2 hff
        have hinv2 : poolInv st2 := findFree_poolInv st1 (some i) st2 hff hinv1
        have hlen12 : st2.pool.length = st1.pool.length :=
          (findFree_core st1 (some i) st2 hff).2.2.2.2.2.2.2
        have hilen1 : i < st1.pool.length := (findFree_found st1 i st2 hff).1
        have hilen2 : i < st2.pool.length := by omega
        split at h
        · exact absurd h (by simp)
        · rename_i hty
          rw [not_not] at hty
          dsimp only at h
          generalize hST3 : ({ st2 with
              framePoolUsed := st2.framePoolUsed + 1,
              framePoolPeak := max st2.framePoolPeak (st2.framePoolUsed + 1) } : State)
              = st3 at h
          generalize hSR : (poolGet st3 i).set stack z id ok = sr at h
          have hilen3 : i < st3.pool.length := by
            rw [← hST3]
            exact hilen2
          have hp32 : st3.pool = st2.pool := by rw [← hST3]
          have hft : sr.2.ftype = (poolGet st3 i).ftype := by
            rw [← hSR]
            exact Frame.set_ftype _ _ _ _ _
          have hpg32 : poolGet st3 i = poolGet st2 i := by
            unfold poolGet
            rw [hp32]
          have hsrft : sr.2.ftype = FrameType.displayQueue := by
            rw [hft, hpg32]
            exact hty
          split at h
          · -- Frame::set failed: the -ENOSYS exit with the leaked pool charge
            rename_i hsr
            injection h with h
            injection h with h2 h3
            subst h3
            right
            have hsf := Frame.set_fail_implies (poolGet st3 i) stack z id ok
              (by rw [hSR]; simpa using hsr)
            refine ⟨h2.symm, hsf.1, ?_⟩
            have e1 : (setPool st3 i sr.2).framePoolUsed = st3.framePoolUsed := rfl
            have e2 : (setPool st3 i sr.2).ring = st3.ring := rfl
            have e3 : (setPool st3 i sr.2).framesLockedForDisplay
                = st3.framesLockedForDisplay := rfl
            have e4 : st3.framePoolUsed = st2.framePoolUsed + 1 := by rw [← hST3]
            have e5 : st3.ring = st2.ring := by rw [← hST3]
            have e6 : st3.framesLockedForDisplay = st2.framesLockedForDisplay := by
              rw [← hST3]
            have hcc : countDQ (setPool st3 i sr.2).pool st2.ring
                = countDQ st2.pool st2.ring := by
              have h0 := countDQ_pool_setPool st3 i sr.2 st2.ring hft
              rw [h0, hp32]
            rw [e1, e2, e3, e4, e5, e6, hcc]
            unfold poolInv at hinv2
            omega
          · -- Frame::set succeeded: queue the frame
            generalize hST6 : ({ setPool (setPool st3 i sr.2) i
                { sr.2 with effectiveFrame := id } with lastQueuedFrame := id } : State)
                = st6 at h
            split at h
            · exact absurd h (by simp)
            · rename_i st7 hqw
              injection h with h
              injection h with h2 h3
              subst h3
              left
              obtain ⟨hring7, _, _, _, hlocked7, hused7, hpool7⟩ :=
                doQueueWork_fields _ _ _ hqw
              have h6ring : st6.ring = st2.ring := by
                rw [← hST6, ← hST3]
                rfl
              have h6used : st6.framePoolUsed = st2.framePoolUsed + 1 := by
                rw [← hST6, ← hST3]
                rfl
              have h6locked : st6.framesLockedForDisplay
                  = st2.framesLockedForDisplay := by
                rw [← hST6, ← hST3]
                rfl
              have h6pool : st6.pool
                  = (st2.pool.set i sr.2).set i { sr.2 with effectiveFrame := id } := by
                rw [← hST6, ← hST3]
                rfl
              have hdq6 : (st6.pool.getD i {}).ftype = FrameType.displayQueue := by
                rw [h6pool, List.getD_eq_getElem?_getD,
                  List.getElem?_set_self (show i < (st2.pool.set i sr.2).length by
                    rw [List.length_set]; exact hilen2)]
                exact hsrft
              have hc1 : countDQ st6.pool (st2.ring ++ [RingItem.frameRef i])
                  = countDQ st6.pool st2.ring + 1 := countDQ_frame_append _ _ _ hdq6
              have hc2 : countDQ st6.pool st2.ring = countDQ st2.pool st2.ring := by
                rw [h6pool, countDQ_set, countDQ_set]
                · show sr.2.ftype = (poolGet st2 i).ftype
                  rw [hsrft, hty]
                · show ({ sr.2 with effectiveFrame := id } : Frame).ftype
                    = ((st2.pool.set i sr.2).getD i {}).ftype
                  rw [List.getD_eq_getElem?_getD, List.getElem?_set_self hilen2]
                  rfl
              unfold poolInv
              rw [hused7, h6used, hlocked7, h6locked, hpool7, hring7, h6ring, hc1, hc2]
              unfold poolInv at hinv2
              omega

theorem doFlush_poolInv (st : State) (b : Bool) (st1 : State)
    (h : doFlush st = (b, st1)) (hinv : poolInv st) : poolInv st1 := by
  unfold doFlush at h
  split at h
  · injection h with h1 h2
    subst h2
    exact hinv
  · injection h with h1 h2
    subst h2
    unfold poolInv at hinv ⊢
    exact hinv

theorem flush_poolInv (fi : Nat) (tn : Int) (st : State) (hinv : poolInv st) :
    poolInv (flush fi tn st).2 := by
  unfold flush
  split
  · cases hdo : doFlush st with
    | mk b st1 =>
      cases b
      · exact doInvalidateFrames_poolInv st1 (doFlush_poolInv st false st1 hdo hinv)
      · exact doFlush_poolInv st true st1 hdo hinv
  · exact doInvalidateFrames_poolInv st hinv

theorem consumeWork_poolInv (st : State) (b : Bool) (st1 : State)
    (h : consumeWork st = some (b, st1)) (hinv : poolInv st) : poolInv st1 := by
  unfold consumeWork at h
  cases hr : st.ring with
  | nil =>
    rw [hr] at h
    dsimp only at h
    split_ifs at h
    injection h with h
    injection h with h1 h2
    subst h2
    exact hinv
  | cons it rest =>
    rw [hr] at h
    cases it with
    | frameRef i =>
      dsimp only at h
      split_ifs at h
      rcases Option.map_eq_some'.mp h with ⟨st2, hc, heq⟩
      injection heq with h1 h2
      subst h2
      exact doConsumeFrame_poolInv st st2 hc hinv
    | event eid eff =>
      dsimp only at h
      split_ifs at h
      rcases Option.map_eq_some'.mp h with ⟨st2, hc, heq⟩
      injection heq with h1 h2
      subst h2
      exact doConsumeEvent_poolInv st st2 hc hinv

/-- C1: the pool-accounting invariant `framePoolUsed = (# display-queue
frames linked in the ring) + framesLockedForDisplay` is preserved by every
public operation — including the `NoFreeFrame` error exit of `queueFrame` —
with one exception: the `queueFrame` exit taken when `Frame::set`'s layer
reallocation fails (possible only when the allocation outcome is `false`)
returns with `framePoolUsed` exactly one above the invariant's value,
because the pool charge taken before `Frame::set` is never rolled back. -/
theorem pool_accounting (op : Op) (st st' : State) (hinv : poolInv st)
    (h : applyOp op st = some st') :
    poolInv st' ∨ (op.mayFailAlloc = true ∧
      st'.framePoolUsed = countDQ st'.pool st'.ring + st'.framesLockedForDisplay + 1) := by
  cases op with
  | opQueueEvent eid =>
    left
    simp only [applyOp] at h
    rcases Option.map_eq_some'.mp h with ⟨⟨r, st1⟩, hq, hsnd⟩
    dsimp only at hsnd
    subst hsnd
    exact queueEvent_poolInv eid st r st1 hq hinv
  | opQueueFrame stack z id ok =>
    simp only [applyOp] at h
    rcases Option.map_eq_some'.mp h with ⟨⟨r, st1⟩, hq, hsnd⟩
    dsimp only at hsnd
    subst hsnd
    rcases queueFrame_poolInv stack z id ok st r st1 hinv hq with hp | ⟨hr, hok, hleak⟩
    · exact Or.inl hp
    · subst hok
      exact Or.inr ⟨rfl, hleak⟩
  | opQueueDrop id =>
    left
    simp only [applyOp] at h
    exact queueDrop_poolInv id st st' h hinv
  | opDropAllFrames =>
    left
    simp only [applyOp] at h
    unfold dropAllFrames at h
    exact dropAllLoop_poolInv st.ring st st' h hinv
  | opDropRedundantFrames =>
    left
    simp only [applyOp] at h
    unfold dropRedundantFrames at h
    exact doDropRedundantFrames_poolInv st st' h hinv
  | opConsumeWork =>
    left
    simp only [applyOp] at h
    rcases Option.map_eq_some'.mp h with ⟨⟨b, st1⟩, hq, hsnd⟩
    dsimp only at hsnd
    subst hsnd
    exact consumeWork_poolInv st b st1 hq hinv
  | opReleaseFrame i =>
    left
    simp only [applyOp] at h
    exact releaseFrame_poolInv i st st' h hinv
  | opFlush fi tn =>
    left
    simp only [applyOp] at h
    injection h with h
    subst h
    exact flush_poolInv fi tn st hinv
  | opConsumerBlocked =>
    left
    simp only [applyOp] at h
    injection h with h
    subst h
    unfold consumerBlockedOp poolInv
    unfold poolInv at hinv
    exact hinv
  | opConsumerUnblocked =>
    left
    simp only [applyOp] at h
    unfold consumerUnblockedOp at h
    split_ifs at h
    injection h with h
    subst h
    unfold poolInv at hinv ⊢
    exact hinv
  | opInit =>
    left
    simp only [applyOp] at h
    injection h with h
    subst h
    unfold initOp poolInv
    unfold poolInv at hinv
    exact hinv

theorem sgt32_iff_lt (a b : Nat) (ha : a < half32) (hb : b < half32) :
    sgt32 a b = true ↔ b < a := by
  unfold sgt32 sub32
  simp only [Bool.and_eq_true, decide_eq_true_eq]
  unfold half32 at ha hb
  unfold m32 half32
  omega

theorem poolGet_tl_lt (st : State)
    (hb : ∀ g ∈ st.pool, g.frameId.timelineIndex < half32) (j : Nat) :
    (poolGet st j).frameId.timelineIndex < half32 := by
  unfold poolGet
  rw [List.getD_eq_getElem?_getD]
  cases hg : st.pool[j]? with
  | none => decide
  | some g => exact hb g (List.getElem?_mem hg)

theorem findFreeScan_all_locked (st : State) : ∀ (l : List (Nat × Frame)),
    (∀ p ∈ l, p.2.lockedForDisplay = true) →
    findFreeScan st l none = .inr none := by
  intro l
  induction l with
  | nil => intro _; rfl
  | cons p rest ih =>
    intro hall
    obtain ⟨j, g⟩ := p
    unfold findFreeScan
    rw [if_pos (hall (j, g) (List.mem_cons_self _ _))]
    exact ih (fun q hq => hall q (List.mem_cons_of_mem _ hq))

theorem findFreeScan_inr_none (st : State) : ∀ (l : List (Nat × Frame))
    (old : Option (Nat × Frame)),
    findFreeScan st l old = .inr none →
    old = none ∧ ∀ p ∈ l, p.2.lockedForDisplay = true := by
  intro l
  induction l with
  | nil =>
    intro old h
    unfold findFreeScan at h
    injection h with h
    constructor
    · cases old with
      | none => rfl
      | some p => exact absurd h (by simp)
    · intro p hp
      exact absurd hp (by simp)
  | cons p rest ih =>
    intro old h
    obtain ⟨j, g⟩ := p
    unfold findFreeScan at h
    by_cases hl : g.lockedForDisplay = true
    · rw [if_pos hl] at h
      obtain ⟨ho, hrest⟩ := ih _ h
      refine ⟨ho, ?_⟩
      intro q hq
      rcases List.mem_cons.mp hq with hq | hq
      · rw [hq]
        exact hl
      · exact hrest q hq
    · rw [if_neg hl] at h
      by_cases hq : st.isQueuedIdx j = true
      · rw [if_neg (not_not_intro hq)] at h
        obtain ⟨ho, _⟩ := ih _ h
        by_cases hso : scanOlder old g = true
        · rw [if_pos hso] at ho
          exact absurd ho (by simp)
        · rw [if_neg hso] at ho
          rw [ho] at hso
          exact absurd rfl hso
      · rw [if_pos hq] at h
        exact absurd h (by simp)

theorem findFreeScan_inr_all_queued (st : State) : ∀ (l : List (Nat × Frame))
    (old : Option (Nat × Frame)) (o : Option Nat),
    findFreeScan st l old = .inr o →
    ∀ p ∈ l, p.2.lockedForDisplay = false → st.isQueuedIdx p.1 = true := by
  intro l
  induction l with
  | nil =>
    intro old o h p hp
    exact absurd hp (by simp)
  | cons p0 rest ih =>
    intro old o h p hp
    obtain ⟨j, g⟩ := p0
    unfold findFreeScan at h
    by_cases hl : g.lockedForDisplay = true
    · rw [if_pos hl] at h
      rcases List.mem_cons.mp hp with hpe | hpm
      · intro hplock
        rw [hpe] at hplock
        exact absurd (hl.symm.trans hplock) (by simp)
      · exact ih _ _ h p hpm
    · rw [if_neg hl] at h
      by_cases hq : st.isQueuedIdx j = true
      · rw [if_neg (not_not_intro hq)] at h
        rcases List.mem_cons.mp hp with hpe | hpm
        · intro _
          rw [hpe]
          exact hq
        · exact ih _ _ h p hpm
      · rw [if_pos hq] at h
        exact absurd h (by simp)

theorem findFreeScan_min (st : State)
    (hb : ∀ g ∈ st.pool, g.frameId.timelineIndex < half32) :
    ∀ (l : List (Nat × Frame)) (old : Option (Nat × Frame)) (i : Nat),
    (∀ p ∈ l, p.2 = poolGet st p.1) →
    (∀ p, old = some p → p.2 = poolGet st p.1) →
    findFreeScan st l old = .inr (some i) →
    (∀ p ∈ l, p.2.lockedForDisplay = false → st.isQueuedIdx p.1 = true →
      (poolGet st i).frameId.timelineIndex ≤ p.2.frameId.timelineIndex) ∧
    (∀ p, old = some p →
      (poolGet st i).frameId.timelineIndex ≤ p.2.frameId.timelineIndex) := by
  intro l
  induction l with
  | nil =>
    intro old i hl hold h
    unfold findFreeScan at h
    injection h with h
    cases old with
    | none => exact absurd h (by simp)
    | some p0 =>
      obtain ⟨j0, g0⟩ := p0
      rw [Option.map_some'] at h
      injection h with h
      subst h
      constructor
      · intro p hp
        exact absurd hp (by simp)
      · intro p hp
        injection hp with hp
        rw [← hp]
        have hg0 : g0 = poolGet st j0 := hold (j0, g0) rfl
        rw [hg0]
  | cons p0 rest ih =>
    intro old i hl hold h
    obtain ⟨j, g⟩ := p0
    have hg : g = poolGet st j := hl (j, g) (List.mem_cons_self _ _)
    have hlrest : ∀ p ∈ rest, p.2 = poolGet st p.1 :=
      fun p hp => hl p (List.mem_cons_of_mem _ hp)
    unfold findFreeScan at h
    by_cases hlk : g.lockedForDisplay = true
    · rw [if_pos hlk] at h
      obtain ⟨ihl, iho⟩ := ih _ i hlrest hold h
      constructor
      · intro p hp hplock hpq
        rcases List.mem_cons.mp hp with hpe | hpm
        · rw [hpe] at hplock
          exact absurd (hlk.symm.trans hplock) (by simp)
        · exact ihl p hpm hplock hpq
      · exact iho
    · rw [if_neg hlk] at h
      by_cases hq : st.isQueuedIdx j = true
      · rw [if_neg (not_not_intro hq)] at h
        by_cases hso : scanOlder old g = true
        · rw [if_pos hso] at h
          obtain ⟨ihl, iho⟩ := ih _ i hlrest
            (fun p hp => by
              injection hp with hp
              rw [← hp]
              exact hg) h
          have hbound : (poolGet st i).frameId.timelineIndex
              ≤ g.frameId.timelineIndex := iho (j, g) rfl
          constructor
          · intro p hp hplock hpq
            rcases List.mem_cons.mp hp with hpe | hpm
            · rw [hpe]
              exact hbound
            · exact ihl p hpm hplock hpq
          · intro p hp
            cases old with
            | none => exact absurd hp (by simp)
            | some q0 =>
              obtain ⟨j0, g0⟩ := q0
              injection hp with hp
              rw [← hp]
              have hg0 : g0 = poolGet st j0 := hold (j0, g0) rfl
              have hso2 : sgt32 g0.frameId.timelineIndex g.frameId.timelineIndex
                  = true := hso
              have hlt : g.frameId.timelineIndex < g0.frameId.timelineIndex :=
                (sgt32_iff_lt _ _ (by rw [hg0]; exact poolGet_tl_lt st hb j0)
                  (by rw [hg]; exact poolGet_tl_lt st hb j)).mp hso2
              exact le_trans hbound (le_of_lt hlt)
        · rw [if_neg hso] at h
          cases old with
          | none =>
            exact absurd rfl hso
          | some q0 =>
            obtain ⟨j0, g0⟩ := q0
            have hg0 : g0 = poolGet st j0 := hold (j0, g0) rfl
            obtain ⟨ihl, iho⟩ := ih _ i hlrest hold h
            have hb0 : (poolGet st i).frameId.timelineIndex
                ≤ g0.frameId.timelineIndex := iho (j0, g0) rfl
            have hle : g0.frameId.timelineIndex ≤ g.frameId.timelineIndex := by
              by_contra hlt2
              push_neg at hlt2
              exact hso ((sgt32_iff_lt _ _
                (by rw [hg0]; exact poolGet_tl_lt st hb j0)
                (by rw [hg]; exact poolGet_tl_lt st hb j)).mpr hlt2)
            constructor
            · intro p hp hplock hpq
              rcases List.mem_cons.mp hp with hpe | hpm
              · rw [hpe]
                exact le_trans hb0 hle
              · exact ihl p hpm hplock hpq
            · intro p hp
              injection hp with hp
              rw [← hp]
              exact hb0
      · rw [if_pos hq] at h
        exact absurd h (by simp)

theorem mem_enum_of_lt (p : List Frame) (j : Nat) (hj : j < p.length) :
    (j, p.getD j {}) ∈ p.enum := by
  apply List.mem_enum_iff_getElem?.mpr
  rw [List.getElem?_eq_getElem hj, List.getD_eq_getElem?_getD,
    List.getElem?_eq_getElem hj]
  rfl

/-- C5: `findFree` returns an in-range, unlocked pool frame; if an unlocked,
unqueued frame exists it returns such a frame with the state untouched; when
the returned frame was queued, every unlocked pool frame was queued, the
returned frame's `timelineIndex` is minimal among the unlocked queued frames
(the signed 32-bit comparison agrees with `≤` under the stated window bound
on the timeline indices), and the frame is dropped from the ring; it returns
nil exactly when every pool frame is locked for display, leaving the state
untouched. -/
theorem findFree_spec (st : State) (o : Option Nat) (st' : State)
    (hb : ∀ g ∈ st.pool, g.frameId.timelineIndex < half32)
    (h : findFree st = some (o, st')) : findFreeSpecHolds st o st' := by
  have henum : ∀ p ∈ st.pool.enum, p.2 = poolGet st p.1 := by
    intro p hp
    obtain ⟨j, g⟩ := p
    obtain ⟨hlt, hgd⟩ := mem_enum_lt _ _ _ hp
    unfold poolGet
    exact hgd.symm
  unfold findFreeSpecHolds
  refine ⟨?_, ?_, ?_⟩
  · intro ho
    subst ho
    unfold findFree at h
    split at h
    · injection h with h
      injection h with h2 h3
      exact absurd h2 (by simp)
    · rename_i heq
      injection h with h
      injection h with h2 h3
      subst h3
      refine ⟨rfl, ?_⟩
      obtain ⟨_, hall⟩ := findFreeScan_inr_none st _ _ heq
      intro g hg
      obtain ⟨j, hj, hgj⟩ := List.getElem_of_mem hg
      have hmem : (j, g) ∈ st.pool.enum :=
        List.mem_enum_iff_getElem?.mpr (by rw [List.getElem?_eq_getElem hj, hgj])
      exact hall (j, g) hmem
    · rename_i i0 heq
      cases hdrop : dropFrame i0 st with
      | none =>
        rw [hdrop] at h
        exact absurd h (by simp)
      | some st1 =>
        rw [hdrop] at h
        injection h with h
        injection h with h2 h3
        exact absurd h2 (by simp)
  · intro hall
    unfold findFree at h
    have hscan : findFreeScan st st.pool.enum none = .inr none := by
      apply findFreeScan_all_locked
      intro p hp
      exact hall p.2 (List.getElem?_mem (List.mem_enum_iff_getElem?.mp
        (by rw [← Prod.mk.eta (p := p)] at hp; exact hp)))
    rw [hscan] at h
    injection h with h
    injection h with h2 h3
    exact h2.symm
  · intro i ho
    subst ho
    obtain ⟨hlen, hunlocked⟩ := findFree_found st i st' h
    refine ⟨hlen, hunlocked, ?_, ?_⟩
    · intro hnq
      unfold findFree at h
      split at h
      · injection h with h
        injection h with h2 h3
        exact h3.symm
      · injection h with h
        injection h with h2 h3
        exact absurd h2 (by simp)
      · rename_i i0 heq
        cases hdrop : dropFrame i0 st with
        | none =>
          rw [hdrop] at h
          exact absurd h (by simp)
        | some st1 =>
          rw [hdrop] at h
          injection h with h
          injection h with h2 h3
          injection h2 with h2
          subst h2
          rcases findFreeScan_inr_mem st _ _ _ heq with ⟨f, hmem, hfl, hfq⟩ |
            ⟨f, hold⟩
          · exact absurd (hnq.symm.trans hfq) (by simp)
          · exact absurd hold (by simp)
    · intro hq2
      unfold findFree at h
      split at h
      · rename_i i0 heq
        injection h with h
        injection h with h2 h3
        injection h2 with h2
        subst h2
        obtain ⟨f, hmem, hfl, hnq⟩ := findFreeScan_inl st _ _ _ heq
        exact absurd (hnq.symm.trans hq2) (by simp)
      · injection h with h
        injection h with h2 h3
        exact absurd h2 (by simp)
      · rename_i i0 heq
        cases hdrop : dropFrame i0 st with
        | none =>
          rw [hdrop] at h
          exact absurd h (by simp)
        | some st1 =>
          rw [hdrop] at h
          injection h with h
          injection h with h2 h3
          injection h2 with h2
          subst h2
          subst h3
          refine ⟨?_, ?_, ?_⟩
          · unfold dropFrame at hdrop
            dsimp only at hdrop
            split_ifs at hdrop with h1 h2 h3
            any_goals simp at hdrop
            subst hdrop
            rfl
          · intro j hjlen hjunlocked
            have hmem : (j, st.pool.getD j {}) ∈ st.pool.enum :=
              mem_enum_of_lt _ _ hjlen
            exact findFreeScan_inr_all_queued st _ _ _ heq
              (j, st.pool.getD j {}) hmem hjunlocked
          · obtain ⟨ihl, _⟩ := findFreeScan_min st hb st.pool.enum none _ henum
              (fun p hp => absurd hp (by simp)) heq
            intro j hjlen hjunlocked hjq
            have hmem : (j, st.pool.getD j {}) ∈ st.pool.enum :=
              mem_enum_of_lt _ _ hjlen
            exact ihl (j, st.pool.getD j {}) hmem hjunlocked hjq

/-- C5 witness: `findFree` on the empty two-frame-pool queue returns frame 0
with the state untouched. -/
theorem findFree_spec_witness : findFreeSpecHolds stEmpty2 (some 0) stEmpty2 :=
  findFree_spec stEmpty2 (some 0) stEmpty2 (by decide) (by decide)

/-- C1 witness: the theorem applied to `queueDrop (3,3)` on the empty
two-frame-pool queue. -/
theorem pool_accounting_witness :
    poolInv stEmpty2Dropped ∨ ((Op.opQueueDrop ⟨3, 3⟩).mayFailAlloc = true ∧
      stEmpty2Dropped.framePoolUsed
        = countDQ stEmpty2Dropped.pool stEmpty2Dropped.ring
          + stEmpty2Dropped.framesLockedForDisplay + 1) :=
  pool_accounting (Op.opQueueDrop ⟨3, 3⟩) stEmpty2 stEmpty2Dropped
    (by decide) (by decide)

/-- C1 counterexample to the claim as stated: on the empty two-frame-pool
queue (where the invariant holds), `queueFrame` with a one-layer stack and
failing allocation returns an error, and the invariant does not hold in the
resulting state (`framePoolUsed = 1` with nothing queued and nothing
locked). -/
theorem pool_accounting_cex :
    poolInv stEmpty2 ∧
    (applyOp (Op.opQueueFrame [{}] 0 ⟨1, 1⟩ false) stEmpty2).isSome = true ∧
    Option.all (fun st1 => ! decide (poolInv st1))
      (applyOp (Op.opQueueFrame [{}] 0 ⟨1, 1⟩ false) stEmpty2) = true :=
  ⟨by decide, by decide, by decide⟩

theorem ringIdxs_event (e : Nat) (eff : FrameId) (r : List RingItem) :
    ringIdxs (.event e eff :: r) = ringIdxs r := rfl

theorem ringIdxs_frame (i : Nat) (r : List RingItem) :
    ringIdxs (.frameRef i :: r) = i :: ringIdxs r := rfl

theorem ringIdxs_append : ∀ (r1 r2 : List RingItem),
    ringIdxs (r1 ++ r2) = ringIdxs r1 ++ ringIdxs r2 := by
  intro r1 r2
  induction r1 with
  | nil => rfl
  | cons it rest ih =>
    cases it with
    | frameRef i =>
      rw [List.cons_append, ringIdxs_frame, ringIdxs_frame, ih, List.cons_append]
    | event e eff =>
      rw [List.cons_append, ringIdxs_event, ringIdxs_event, ih]

theorem ringIdxs_reverse : ∀ (r : List RingItem),
    ringIdxs r.reverse = (ringIdxs r).reverse := by
  intro r
  induction r with
  | nil => rfl
  | cons it rest ih =>
    cases it with
    | frameRef i =>
      rw [List.reverse_cons, ringIdxs_append, ih, ringIdxs_frame, ringIdxs_frame,
        List.reverse_cons]
      rfl
    | event e eff =>
      rw [List.reverse_cons, ringIdxs_append, ih, ringIdxs_event, ringIdxs_event]
      exact List.append_nil _

theorem specRedundantDrops_event (pool : List Frame) (e : Nat) (eff : FrameId)
    (rest : List RingItem) (b : Bool) :
    specRedundantDrops pool (.event e eff :: rest) b
      = specRedundantDrops pool rest b := rfl

theorem specRedundantDrops_frames (pool : List Frame) :
    ∀ (todo : List RingItem) (b : Bool) (d : RingItem),
    d ∈ specRedundantDrops pool todo b →
    ∃ i, d = RingItem.frameRef i ∧ (pool.getD i {}).lockedForDisplay = false := by
  intro todo
  induction todo with
  | nil =>
    intro b d hd
    exact absurd hd (by simp [specRedundantDrops])
  | cons it rest ih =>
    intro b d hd
    cases it with
    | event e eff =>
      rw [specRedundantDrops_event] at hd
      exact ih _ _ hd
    | frameRef i =>
      cases b with
      | true =>
        unfold specRedundantDrops at hd
        dsimp only at hd
        rw [if_pos rfl] at hd
        by_cases hlk : (pool.getD i {}).lockedForDisplay = true
        · rw [if_pos hlk] at hd
          exact ih _ _ hd
        · rw [if_neg hlk] at hd
          rcases List.mem_cons.mp hd with hde | hdm
          · exact ⟨i, hde, by simpa using hlk⟩
          · exact ih _ _ hdm
      | false =>
        unfold specRedundantDrops at hd
        dsimp only at hd
        rw [if_neg (by simp)] at hd
        exact ih _ _ hd

theorem dropFrame_fields (i : Nat) (st st' : State)
    (h : dropFrame i st = some st') :
    st'.ring = ringErase st.ring (.frameRef i) ∧
    st'.pool = st.pool.set i ((poolGet st i).reset true) := by
  unfold dropFrame at h
  dsimp only at h
  split_ifs at h
  any_goals simp at h
  subst h
  exact ⟨rfl, rfl⟩

theorem mem_ringErase_of_ne (x d : RingItem) : ∀ (r : List RingItem),
    x ∈ r → x ≠ d → x ∈ ringErase r d := by
  intro r
  induction r with
  | nil =>
    intro hx _
    exact absurd hx (by simp)
  | cons a rest ih =>
    intro hx hne
    unfold ringErase
    by_cases had : a = d
    · rw [if_pos had]
      rcases List.mem_cons.mp hx with he | hm
      · exact absurd (he.trans had) hne
      · exact hm
    · rw [if_neg had]
      rcases List.mem_cons.mp hx with he | hm
      · rw [he]
        exact List.mem_cons_self _ _
      · exact List.mem_cons_of_mem _ (ih hm hne)

theorem mem_removeItems_of_event (e : Nat) (eff : FrameId) :
    ∀ (ds : List RingItem) (r : List RingItem),
    (∀ d ∈ ds, ∃ i, d = RingItem.frameRef i) →
    RingItem.event e eff ∈ r → RingItem.event e eff ∈ removeItems r ds := by
  intro ds
  induction ds with
  | nil =>
    intro r _ hx
    exact hx
  | cons d rest ih =>
    intro r hall hx
    unfold removeItems
    apply ih
    · intro q hq
      exact hall q (List.mem_cons_of_mem _ hq)
    · obtain ⟨i, hdi⟩ := hall d (List.mem_cons_self _ _)
      apply mem_ringErase_of_ne
      · exact hx
      · rw [hdi]
        intro hcon
        cases hcon

theorem redundantWalk_ring (pool : List Frame) :
    ∀ (todo : List RingItem) (b : Bool) (st st' : State),
    (∀ j, j ∈ ringIdxs todo → poolGet st j = pool.getD j {}) →
    (ringIdxs todo).Nodup →
    redundantWalk todo b st = some st' →
    st'.ring = removeItems st.ring (specRedundantDrops pool todo b) := by
  intro todo
  induction todo with
  | nil =>
    intro b st st' hag hnd h
    unfold redundantWalk at h
    injection h with h
    subst h
    rfl
  | cons it rest ih =>
    intro b st st' hag hnd h
    unfold redundantWalk at h
    cases it with
    | event e eff =>
      dsimp only at h
      rw [ringIdxs_event] at hag hnd
      have hih := ih b st st' hag hnd h
      rw [hih, specRedundantDrops_event]
    | frameRef i =>
      dsimp only at h
      rw [ringIdxs_frame] at hag hnd
      have hagi : poolGet st i = pool.getD i {} := hag i (List.mem_cons_self _ _)
      have hagr : ∀ j, j ∈ ringIdxs rest → poolGet st j = pool.getD j {} :=
        fun j hj => hag j (List.mem_cons_of_mem _ hj)
      have hnotin : i ∉ ringIdxs rest := (List.nodup_cons.mp hnd).1
      have hndr : (ringIdxs rest).Nodup := (List.nodup_cons.mp hnd).2
      cases b with
      | true =>
        rw [if_pos rfl] at h
        by_cases hlk : (poolGet st i).lockedForDisplay = true
        · rw [if_pos hlk] at h
          have hih := ih true st st' hagr hndr h
          rw [hih]
          have hspec : specRedundantDrops pool (RingItem.frameRef i :: rest) true
              = specRedundantDrops pool rest true := by
            conv_lhs => unfold specRedundantDrops
            dsimp only
            rw [if_pos rfl, if_pos (by rw [← hagi]; exact hlk)]
          rw [hspec]
        · rw [if_neg hlk] at h
          cases hdrop : dropFrame i st with
          | none =>
            rw [hdrop] at h
            exact absurd h (by simp)
          | some st1 =>
            rw [hdrop] at h
            obtain ⟨hring1, hpool1⟩ := dropFrame_fields i st st1 hdrop
            have hag1 : ∀ j, j ∈ ringIdxs rest → poolGet st1 j = pool.getD j {} := by
              intro j hj
              have hne : i ≠ j := fun hij => hnotin (hij ▸ hj)
              unfold poolGet
              rw [hpool1, List.getD_eq_getElem?_getD, List.getElem?_set_ne hne,
                ← List.getD_eq_getElem?_getD]
              exact hagr j hj
            have hih := ih true st1 st' hag1 hndr h
            rw [hih, hring1]
            have hspec : specRedundantDrops pool (RingItem.frameRef i :: rest) true
                = RingItem.frameRef i :: specRedundantDrops pool rest true := by
              conv_lhs => unfold specRedundantDrops
              dsimp only
              rw [if_pos rfl, if_neg (by rw [← hagi]; exact hlk)]
            rw [hspec]
            rfl
      | false =>
        rw [if_neg (by simp)] at h
        have hih := ih _ st st' hagr hndr h
        rw [hih]
        have hspec : specRedundantDrops pool (RingItem.frameRef i :: rest) false
            = specRedundantDrops pool rest (pool.getD i {}).isRenderingComplete := by
          conv_lhs => unfold specRedundantDrops
          dsimp only
          rw [if_neg (by simp)]
        rw [hspec, ← hagi]

/-- C4: `dropRedundantFrames` removes from the ring exactly the drop set of
the backward walk the claim describes — from the item before the tail
towards the head, with `newerComplete` seeded from whether the tail frame's
rendering is complete, dropping each frame met while `newerComplete` holds
unless it is locked for display, and otherwise refreshing `newerComplete`
from that frame; every dropped item is an unlocked frame, and events are
never removed.  The hypothesis says the ring holds no duplicate pool index,
which every real queue state satisfies (a pool frame is linked at most
once). -/
theorem dropRedundantFrames_spec (st st' : State)
    (hnd : (ringIdxs st.ring).Nodup)
    (h : dropRedundantFrames st = some st') :
    st'.ring = removeItems st.ring (redundantDropSet st) ∧
    (∀ d ∈ redundantDropSet st, ∃ i, d = RingItem.frameRef i ∧
      (poolGet st i).lockedForDisplay = false) ∧
    (∀ e eff, RingItem.event e eff ∈ st.ring →
      RingItem.event e eff ∈ st'.ring) := by
  unfold dropRedundantFrames doDropRedundantFrames at h
  unfold redundantDropSet
  cases hrev : st.ring.reverse with
  | nil =>
    rw [hrev] at h
    injection h with h
    subst h
    exact ⟨rfl, fun d hd => absurd hd (by simp), fun e eff he => he⟩
  | cons tailItem restRev =>
    cases restRev with
    | nil =>
      rw [hrev] at h
      injection h with h
      subst h
      exact ⟨rfl, fun d hd => absurd hd (by simp), fun e eff he => he⟩
    | cons b2 rest2 =>
      rw [hrev] at h
      dsimp only at h ⊢
      have hsub : ∀ j, j ∈ ringIdxs (b2 :: rest2) →
          poolGet st j = st.pool.getD j {} := fun j _ => rfl
      have hnd2 : (ringIdxs (b2 :: rest2)).Nodup := by
        have h1 : (ringIdxs st.ring.reverse).Nodup := by
          rw [ringIdxs_reverse]
          exact List.nodup_reverse.mpr hnd
        rw [hrev] at h1
        cases tailItem with
        | event e eff =>
          rw [ringIdxs_event] at h1
          exact h1
        | frameRef i =>
          rw [ringIdxs_frame] at h1
          exact (List.nodup_cons.mp h1).2
      have hwalk := redundantWalk_ring st.pool (b2 :: rest2)
        (isFrameAndComplete st tailItem) st st' hsub hnd2 h
      refine ⟨hwalk, ?_, ?_⟩
      · intro d hd
        obtain ⟨i, hdi, hlk⟩ := specRedundantDrops_frames st.pool _ _ d hd
        exact ⟨i, hdi, hlk⟩
      · intro e eff he
        rw [hwalk]
        apply mem_removeItems_of_event
        · intro d hd
          obtain ⟨i, hdi, _⟩ := specRedundantDrops_frames st.pool _ _ d hd
          exact ⟨i, hdi⟩
        · exact he

/-- C4 witness: two queued rendering-complete frames; the tail frame `(2,2)`
being complete, the earlier frame `(1,1)` is dropped and nothing else. -/
theorem dropRedundantFrames_spec_witness :
    stTwoQueuedDropped.ring
      = removeItems stTwoQueued.ring (redundantDropSet stTwoQueued) ∧
    (∀ d ∈ redundantDropSet stTwoQueued, ∃ i, d = RingItem.frameRef i ∧
      (poolGet stTwoQueued i).lockedForDisplay = false) ∧
    (∀ e eff, RingItem.event e eff ∈ stTwoQueued.ring →
      RingItem.event e eff ∈ stTwoQueuedDropped.ring) :=
  dropRedundantFrames_spec stTwoQueued stTwoQueuedDropped (by decide) (by decide)

end DisplayQueue
